import Mathlib

/-!
Verification development for the translation core of the 9router LLM API
gateway.  The JavaScript sources embedded here are:

* `open-sse/translator/to-openai/openai.js` — namespace `ToOpenAIJs`
  (request converters `openaiToClaude`, a legacy `openaiToGemini`, and the
  helpers `getContentBlocksFromMessage`, `convertOpenAIToolChoice`,
  `extractTextContent`, `tryParseJSON`);
* the Gemini translator module — namespace `GeminiJs`
  (`openaiToGeminiBase`, `openaiToGemini`, `openaiToGeminiCLI`,
  `wrapInCloudCodeEnvelope`, `openaiToAntigravity`, `geminiToOpenAIResponse`);
* the Claude/OpenAI streaming translator module — namespace `ClaudeStreamJs`
  (`claudeToOpenAIResponse`, `openaiToClaudeResponse`, `convertStopReason`,
  `convertFinishReason`, `stopThinkingBlock`, `stopTextBlock`).

JavaScript values that the translators treat generically are embedded as the
inductive `JValue`; ambient platform functions (`JSON.parse`,
`JSON.stringify`, `Date.now`) and constants imported from modules that are
not part of the translation core (`CLAUDE_SYSTEM_PROMPT`, `adjustMaxTokens`,
`DEFAULT_THINKING_GEMINI_SIGNATURE`, `cleanJSONSchemaForAntigravity`,
`DEFAULT_SAFETY_SETTINGS`, the random id generators) are injected through an
explicit environment `Env`, mirroring §9 of the design notes.  Mutable
per-connection stream state is threaded explicitly: each streaming step takes
the state and returns the (optional, `null` when empty) list of emitted
chunks together with the updated state.
-/

/-- A JavaScript (JSON-like) runtime value.  `undef` stands for the JS
`undefined` value, which is distinct from `null`. -/
inductive JValue where
  | null : JValue
  | undef : JValue
  | bool (b : Bool) : JValue
  | num (n : Int) : JValue
  | str (s : String) : JValue
  | arr (xs : List JValue) : JValue
  | obj (fields : List (String × JValue)) : JValue
  deriving Repr

/-- JS truthiness of a `JValue`. -/
def JValue.truthy : JValue → Bool
  | .null => false
  | JValue.undef => false
  | .bool b => b
  | .num n => n != 0
  | .str s => s != ""
  | .arr _ => true
  | .obj _ => true

/-- `v === null` in JS. -/
def JValue.isNull : JValue → Bool
  | .null => true
  | _ => false

/-- `typeof v === "object"` in JS (true for objects, arrays and `null`). -/
def JValue.typeofObject : JValue → Bool
  | .obj _ => true
  | .arr _ => true
  | .null => true
  | _ => false

/-- An element of an OpenAI-style `content` array.  `tool_result` carries its
payload as a generic JS value; `other` stands for any unrecognized element. -/
inductive OPart where
  | text (t : String) : OPart
  | image_url (url : String) : OPart
  | tool_result (tool_use_id : Option String) (content : JValue) (is_error : Bool) : OPart
  | image (srcType : String) (media_type : String) (data : String) : OPart
  | tool_use (id : String) (name : String) (input : JValue) : OPart
  | other : OPart
  deriving Repr

/-- The `content` field of an OpenAI-style message: a plain string, an array
of parts, absent (`undefined`/`null`), or any other JS value. -/
inductive OContent where
  | str (s : String) : OContent
  | parts (ps : List OPart) : OContent
  | undef : OContent
  | jval (v : JValue) : OContent
  deriving Repr

/-- JS truthiness of a message `content` value. -/
def OContent.truthy : OContent → Bool
  | .str s => s != ""
  | .parts _ => true
  | OContent.undef => false
  | .jval v => v.truthy

/-- The `function` field of an OpenAI tool call: `{name, arguments}`. -/
structure OFunc where
  name : String
  arguments : Option String := none
  deriving Repr

/-- An OpenAI tool call record `{type, id, function}`. -/
structure OToolCall where
  ttype : String
  id : String
  function : Option OFunc := none
  deriving Repr

/-- The Claude-style `thinking` request field `{type, budget_tokens}`. -/
structure OThinking where
  ttype : String
  budget_tokens : Option Int := none
  deriving Repr

/-- The name/description/parameters payload of a tool definition (either the
`function` sub-object or the top-level fields of the tool itself). -/
structure ToolFnDef where
  name : String
  description : Option String := none
  parameters : Option JValue := none
  input_schema : Option JValue := none
  deriving Repr

/-- An entry of `body.tools`: `ttype`/`function` for the OpenAI shape, `self`
holding the top-level fields used by the direct (already-native) shape. -/
structure OTool where
  ttype : String
  function : Option ToolFnDef := none
  self : ToolFnDef := {name := ""}
  deriving Repr

/-- `body.tool_choice`: a string keyword, an object naming a function, or an
already-Claude-native object carrying a `type` field. -/
inductive OToolChoice where
  | keyword (s : String) : OToolChoice
  | fnObject (name : String) : OToolChoice
  | nativeObject (ttype : String) (name : Option String) : OToolChoice
  deriving Repr

/-- An OpenAI-style request message. -/
structure OMsg where
  role : String
  content : OContent := OContent.undef
  tool_calls : Option (List OToolCall) := none
  tool_call_id : Option String := none
  deriving Repr

/-- An OpenAI-style request body (the fields the translators read). -/
structure OBody where
  messages : Option (List OMsg) := none
  tools : Option (List OTool) := none
  tool_choice : Option OToolChoice := none
  temperature : Option Int := none
  top_p : Option Int := none
  top_k : Option Int := none
  max_tokens : Option Int := none
  reasoning_effort : Option String := none
  thinking : Option OThinking := none
  deriving Repr

/-- Modelled from the spec: the ambient platform functions and the helper
constants that the translator modules import from files outside the
translation core (`JSON.parse`/`JSON.stringify`, `Date.now`,
`CLAUDE_SYSTEM_PROMPT` from `config/constants.js`, `adjustMaxTokens` from
`helpers/maxTokensHelper.js`, `DEFAULT_THINKING_GEMINI_SIGNATURE`,
`DEFAULT_SAFETY_SETTINGS`, `cleanJSONSchemaForAntigravity` and the random id
generators from `helpers/geminiHelper.js`).  Following §9 of the design
notes, they are injected explicitly so the translators stay pure.
`parse s = none` models `JSON.parse` throwing. -/
structure Env where
  parse : String → Option JValue := fun _ => none
  stringify : JValue → String := fun _ => ""
  nowMs : Nat := 0
  claudeSystemPrompt : String := ""
  adjustMaxTokens : OBody → Int := fun _ => 0
  thinkingSignature : String := ""
  safetySettings : JValue := .arr []
  cleanSchema : JValue → JValue := id
  requestId : String := ""
  sessionId : String := ""
  projectId : String := ""

/-- `tryParseJSON` on a generic JS value: strings are parsed (falling back to
the raw string when parsing fails), everything else is returned unchanged. -/
def tryParseJSONValue (env : Env) : JValue → JValue
  | .str s => (env.parse s).getD (.str s)
  | v => v

/-- Embed a message `content` value into the generic JS value universe (used
where the code stores `msg.content` in a map and treats it generically). -/
def OPart.toJValue : OPart → JValue
  | .text t => .obj [("type", .str "text"), ("text", .str t)]
  | .image_url url => .obj [("type", .str "image_url"), ("image_url", .obj [("url", .str url)])]
  | .tool_result tuid c e =>
      .obj [("type", .str "tool_result"),
            ("tool_use_id", match tuid with | some s => .str s | none => JValue.undef),
            ("content", c), ("is_error", .bool e)]
  | .image st mt d =>
      .obj [("type", .str "image"),
            ("source", .obj [("type", .str st), ("media_type", .str mt), ("data", .str d)])]
  | .tool_use id name input =>
      .obj [("type", .str "tool_use"), ("id", .str id), ("name", .str name), ("input", input)]
  | .other => .obj []

/-- Embed an `OContent` into the generic JS value universe. -/
def OContent.toJValue : OContent → JValue
  | .str s => .str s
  | .parts ps => .arr (ps.map OPart.toJValue)
  | OContent.undef => JValue.undef
  | .jval v => v

/-- `extractTextContent`: a plain string is returned as-is, an array is the
newline-join of its text parts, anything else yields `""`. -/
def extractTextContent : OContent → String
  | .str s => s
  | .parts ps => String.intercalate "\n" (ps.filterMap fun p =>
      match p with
      | .text t => some t
      | _ => none)
  | _ => ""

/-- The regex `^data:([^;]+);base64,(.+)$` used to split a data URI into
media type and base64 payload; `none` when the URI is malformed. -/
def parseDataUri (url : String) : Option (String × String) :=
  match url.splitOn ";base64," with
  | mt :: rest₁ :: rest₂ =>
      let payload := String.intercalate ";base64," (rest₁ :: rest₂)
      let mtBody := mt.drop 5
      if mt.startsWith "data:" ∧ mtBody ≠ "" ∧ ¬ mtBody.contains ';' ∧ payload ≠ "" then
        some (mtBody, payload)
      else none
  | _ => none

/-- `cache_control` annotation `{type, ttl?}`. -/
structure CacheCtl where
  ctype : String
  ttl : Option String := none
  deriving Repr

/-- The payload of a Claude content block. -/
inductive CBody where
  | text (t : String) : CBody
  | image (srcType : String) (media_type : String) (data : String) : CBody
  | toolUse (id : String) (name : String) (input : JValue) : CBody
  | toolResult (tool_use_id : Option String) (content : JValue) (is_error : Bool) : CBody
  deriving Repr

/-- A Claude content block: payload plus optional cache annotation. -/
structure CBlock where
  body : CBody
  cache_control : Option CacheCtl := none
  deriving Repr

/-- A Claude-format message `{role, content}`. -/
structure CMsg where
  role : String
  content : List CBlock
  deriving Repr

/-- A Claude-format tool definition. -/
structure CTool where
  name : String
  description : String
  input_schema : JValue
  cache_control : Option CacheCtl := none
  deriving Repr

/-- A Claude-format `tool_choice` value `{type, name?}`. -/
structure CToolChoice where
  ctype : String
  name : Option String := none
  deriving Repr

/-- A Claude-format request body. -/
structure ClaudeRequest where
  model : String
  max_tokens : Int
  stream : Bool
  temperature : Option Int := none
  messages : List CMsg := []
  system : List CBlock := []
  tools : Option (List CTool) := none
  tool_choice : Option CToolChoice := none
  deriving Repr

namespace ToOpenAIJs

/-- `tryParseJSON(tc.function.arguments)` where `arguments` may be absent:
a missing argument string stays `undefined`. -/
def tryParseArguments (env : Env) : Option String → JValue
  | some s => (env.parse s).getD (.str s)
  | none => JValue.undef

/-- `getContentBlocksFromMessage` from `to-openai/openai.js`: normalize one
OpenAI-style message into Claude content blocks.  In the assistant branch the
code reads `tc.function.name` without an optional chain, so a function-typed
tool call lacking its `function` object would throw in JS; such calls are
modelled as producing no block. -/
def getContentBlocksFromMessage (env : Env) (msg : OMsg) : List CBlock :=
  if msg.role = "tool" then
    [⟨.toolResult msg.tool_call_id msg.content.toJValue false, none⟩]
  else if msg.role = "user" then
    match msg.content with
    | .str s => if s ≠ "" then [⟨.text s, none⟩] else []
    | .parts ps => ps.filterMap fun p =>
        match p with
        | .text t => if t ≠ "" then some ⟨.text t, none⟩ else none
        | .tool_result tuid c e => some ⟨.toolResult tuid c e, none⟩
        | .image_url url =>
            match parseDataUri url with
            | some (mt, data) => some ⟨.image "base64" mt data, none⟩
            | none => none
        | .image st mt d => some ⟨.image st mt d, none⟩
        | _ => none
    | _ => []
  else if msg.role = "assistant" then
    (match msg.content with
     | .parts ps => ps.filterMap fun p =>
        match p with
        | .text t => if t ≠ "" then some ⟨.text t, none⟩ else none
        | .tool_use id name input => some ⟨.toolUse id name input, none⟩
        | _ => none
     | c =>
        if c.truthy then
          (if extractTextContent c ≠ "" then [⟨.text (extractTextContent c), none⟩] else [])
        else []) ++
    (match msg.tool_calls with
     | some tcs => tcs.filterMap fun tc =>
        if tc.ttype = "function" then
          match tc.function with
          | some f => some ⟨.toolUse tc.id f.name (tryParseArguments env f.arguments), none⟩
          | none => none
        else none
     | none => [])
  else []

/-- Whether a block is a `tool_use` block. -/
def isToolUseBlock (b : CBlock) : Bool :=
  match b.body with
  | .toolUse _ _ _ => true
  | _ => false

/-- Whether a block is a `tool_result` block. -/
def isToolResultBlock (b : CBlock) : Bool :=
  match b.body with
  | .toolResult _ _ _ => true
  | _ => false

/-- The mutable locals of the message-merging loop of `openaiToClaude`:
`currentRole`, `currentParts` and the `result.messages` built so far. -/
structure MergeSt where
  currentRole : Option String := none
  currentParts : List CBlock := []
  msgs : List CMsg := []
  deriving Repr

/-- `flushCurrentMessage`: push `{role: currentRole, content: currentParts}`
when the role is set and the parts are non-empty, clearing the parts. -/
def flushCurrentMessage (st : MergeSt) : MergeSt :=
  match st.currentRole, st.currentParts with
  | some r, p :: ps => { st with msgs := st.msgs ++ [⟨r, p :: ps⟩], currentParts := [] }
  | _, _ => st

/-- One iteration of the merging loop of `openaiToClaude` over a non-system
message. -/
def mergeStep (env : Env) (st : MergeSt) (msg : OMsg) : MergeSt :=
  let newRole := if msg.role = "user" ∨ msg.role = "tool" then "user" else "assistant"
  let blocks := getContentBlocksFromMessage env msg
  let hasToolUse := blocks.any isToolUseBlock
  let hasToolResult := blocks.any isToolResultBlock
  if hasToolResult then
    let toolResultBlocks := blocks.filter isToolResultBlock
    let otherBlocks := blocks.filter (fun b => ¬ isToolResultBlock b)
    let st := flushCurrentMessage st
    let st :=
      if toolResultBlocks.isEmpty then st
      else { st with msgs := st.msgs ++ [⟨"user", toolResultBlocks⟩] }
    if otherBlocks.isEmpty then st
    else { st with currentRole := some newRole, currentParts := st.currentParts ++ otherBlocks }
  else
    let st :=
      if st.currentRole ≠ some newRole then
        { flushCurrentMessage st with currentRole := some newRole }
      else st
    let st := { st with currentParts := st.currentParts ++ blocks }
    if hasToolUse then flushCurrentMessage st else st

/-- Mark the last block of a message's content with
`cache_control: {type: "ephemeral"}`. -/
def setLastBlockCache (m : CMsg) : CMsg :=
  match m.content.reverse with
  | [] => m
  | b :: rest => ⟨m.role, (({ b with cache_control := some ⟨"ephemeral", none⟩ } : CBlock) :: rest).reverse⟩

/-- Whether a message is eligible for the trailing cache annotation: role
`assistant` with a non-empty content array. -/
def cacheEligible (m : CMsg) : Bool :=
  m.role == "assistant" && !m.content.isEmpty

/-- Walk a reversed message list and mark the first eligible message (i.e.
the last one in the original order). -/
def markFirstEligible : List CMsg → List CMsg
  | [] => []
  | m :: rest => if cacheEligible m then setLastBlockCache m :: rest else m :: markFirstEligible rest

/-- The post-processing pass of `openaiToClaude`: add `cache_control` to the
last block of the last assistant message with non-empty content. -/
def addCacheControlLastAssistant (msgs : List CMsg) : List CMsg :=
  (markFirstEligible msgs.reverse).reverse

/-- `convertOpenAIToolChoice`. -/
def convertOpenAIToolChoice : Option OToolChoice → CToolChoice
  | none => ⟨"auto", none⟩
  | some (.nativeObject t n) => ⟨t, n⟩
  | some (.keyword s) =>
      if s = "auto" ∨ s = "none" then ⟨"auto", none⟩
      else if s = "required" then ⟨"any", none⟩
      else ⟨"auto", none⟩
  | some (.fnObject name) => ⟨"tool", some name⟩

/-- Convert one `body.tools` entry to Claude shape. -/
def convertTool (t : OTool) : CTool :=
  let toolData := if t.ttype = "function" ∧ t.function.isSome then t.function.getD t.self else t.self
  { name := toolData.name
    description := toolData.description.getD ""
    input_schema :=
      (toolData.parameters.orElse fun _ => toolData.input_schema).getD
        (.obj [("type", .str "object"), ("properties", .obj []), ("required", .arr [])]) }

/-- Add `cache_control: {type:"ephemeral", ttl:"1h"}` to the last tool. -/
def markLastToolCache (ts : List CTool) : List CTool :=
  match ts.reverse with
  | [] => []
  | t :: rest => (({ t with cache_control := some ⟨"ephemeral", some "1h"⟩ } : CTool) :: rest).reverse

/-- `openaiToClaude` from `to-openai/openai.js`: convert an OpenAI request to
Claude format (system extraction, message merging with the standalone
tool-result rule, trailing cache annotations, tools and tool choice). -/
def openaiToClaude (env : Env) (model : String) (body : OBody) (stream : Bool) : ClaudeRequest :=
  let msgs := body.messages.getD []
  let systemParts := (msgs.filter (fun m => m.role = "system")).map fun m =>
    match m.content with
    | .str s => s
    | c => extractTextContent c
  let nonSystem := msgs.filter fun m => m.role ≠ "system"
  let merged := flushCurrentMessage (nonSystem.foldl (mergeStep env) {})
  let claudeCodePrompt : CBlock := ⟨.text env.claudeSystemPrompt, none⟩
  { model := model
    max_tokens := env.adjustMaxTokens body
    stream := stream
    temperature := body.temperature
    messages := addCacheControlLastAssistant merged.msgs
    system :=
      if systemParts ≠ [] then
        [claudeCodePrompt,
         ⟨.text (String.intercalate "\n" systemParts), some ⟨"ephemeral", some "1h"⟩⟩]
      else [claudeCodePrompt]
    tools := (body.tools).map fun ts => markLastToolCache (ts.map convertTool)
    tool_choice := body.tool_choice.map fun tc => convertOpenAIToolChoice (some tc) }

end ToOpenAIJs

/-- A Gemini `functionCall` part payload. -/
structure GFuncCall where
  id : Option String := none
  name : String
  args : JValue
  deriving Repr

/-- A Gemini `functionResponse` part payload. -/
structure GFuncResp where
  id : Option String := none
  name : Option String := none
  response : JValue
  deriving Repr

/-- A Gemini `inlineData` part payload. -/
structure GInline where
  mimeType : String
  data : String
  deriving Repr

/-- A part of a Gemini request `contents` entry (at most one payload field is
set by the converters; `thoughtSignature` may accompany a `functionCall`). -/
structure GPart where
  text : Option String := none
  thoughtSignature : Option String := none
  inlineData : Option GInline := none
  functionCall : Option GFuncCall := none
  functionResponse : Option GFuncResp := none
  deriving Repr

/-- A Gemini `contents` entry `{role, parts}`. -/
structure GContent where
  role : String
  parts : List GPart
  deriving Repr

/-- A Gemini `systemInstruction` value (the legacy converter omits `role`,
the base converter sets it to `"user"`). -/
structure SysInstr where
  role : Option String := none
  parts : List GPart
  deriving Repr

/-- `generationConfig.thinkingConfig`. -/
structure ThinkCfg where
  thinkingBudget : Int
  include_thoughts : Bool
  deriving Repr

/-- A Gemini `generationConfig`. -/
structure GenCfg where
  temperature : Option Int := none
  topP : Option Int := none
  topK : Option Int := none
  maxOutputTokens : Option Int := none
  thinkingConfig : Option ThinkCfg := none
  deriving Repr

/-- One `functionDeclarations` entry of a Gemini `tools` group. -/
structure GFnDecl where
  name : String
  description : String
  parameters : Option JValue := none
  parametersJsonSchema : Option JValue := none
  deriving Repr

/-- A Gemini `tools` entry `{functionDeclarations}`. -/
structure GToolGroup where
  functionDeclarations : List GFnDecl
  deriving Repr

/-- The Gemini request body built by the base converter. -/
structure GemBody where
  model : String
  contents : List GContent
  generationConfig : GenCfg
  safetySettings : JValue
  systemInstruction : Option SysInstr := none
  tools : Option (List GToolGroup) := none
  deriving Repr

/-- The Gemini request body built by the legacy converter in
`to-openai/openai.js` (no `model`/`safetySettings` fields). -/
structure GemBodyLegacy where
  contents : List GContent
  generationConfig : GenCfg
  systemInstruction : Option SysInstr := none
  tools : Option (List GToolGroup) := none
  deriving Repr

/-- The nested `request` of the Cloud-Code envelope. -/
structure EnvelopeReq where
  sessionId : String
  contents : List GContent
  systemInstruction : Option SysInstr
  generationConfig : GenCfg
  safetySettings : JValue
  tools : Option (List GToolGroup)
  deriving Repr

/-- The Cloud-Code (Antigravity) transport envelope. -/
structure CloudCodeEnvelope where
  project : String
  model : String
  userAgent : String
  requestId : String
  request : EnvelopeReq
  deriving Repr

/-- A `tool_calls` entry of an emitted OpenAI streaming delta (`fname` and
`arguments` embed the nested `function` object). -/
structure OTCDelta where
  index : Nat
  id : Option String := none
  ttype : Option String := none
  fname : Option String := none
  arguments : Option String := none
  deriving Repr

/-- The `delta` object of an emitted OpenAI streaming chunk. -/
structure ODelta where
  role : Option String := none
  content : Option String := none
  reasoning_content : Option String := none
  tool_calls : Option (List OTCDelta) := none
  images : Option (List String) := none
  deriving Repr

/-- The `usage` object attached to a final OpenAI chunk. -/
structure OUsageOut where
  prompt_tokens : Int
  completion_tokens : Int
  total_tokens : Int
  reasoning_tokens : Option Int := none
  deriving Repr

/-- An emitted OpenAI streaming chunk (single choice at index 0, as built by
the translators; `object` is always `"chat.completion.chunk"`). -/
structure OChunk where
  id : String
  created : Nat
  model : Option String := none
  delta : ODelta := {}
  finish_reason : Option String := none
  usage : Option OUsageOut := none
  deriving Repr

namespace ToOpenAIJs

/-- `convertOpenAIToGeminiContent` from `to-openai/openai.js`.  The code
reads `tc.function.name` without a guard, so a tool call lacking its
`function` object would throw in JS; such calls are modelled as skipped. -/
def convertOpenAIToGeminiContent (env : Env) (msg : OMsg) : Option GContent :=
  let role := if msg.role = "assistant" then "model" else "user"
  let textParts : List GPart :=
    match msg.content with
    | .str s => if s ≠ "" then [{ text := some s }] else []
    | .parts ps => ps.filterMap fun p =>
        match p with
        | .text t => some { text := some t }
        | .image_url url =>
            if url.startsWith "data:" then
              match parseDataUri url with
              | some (mt, data) => some { inlineData := some ⟨mt, data⟩ }
              | none => none
            else none
        | _ => none
    | _ => []
  let callParts : List GPart :=
    match msg.tool_calls with
    | some tcs => tcs.filterMap fun tc =>
        match tc.function with
        | some f => some { functionCall := some ⟨none, f.name, tryParseArguments env f.arguments⟩ }
        | none => none
    | none => []
  match textParts ++ callParts with
  | [] => none
  | ps => some ⟨role, ps⟩

/-- The legacy `openaiToGemini` from `to-openai/openai.js`: system messages
become `systemInstruction` (last one wins, with no single-message
exception), tool messages become `function`-role contents, other messages go
through `convertOpenAIToGeminiContent`. -/
def openaiToGemini (env : Env) (_model : String) (body : OBody) (_stream : Bool) : GemBodyLegacy :=
  let msgs := body.messages.getD []
  { contents := msgs.filterMap fun m =>
      if m.role = "system" then none
      else if m.role = "tool" then
        some ⟨"function",
          [{ functionResponse :=
               some ⟨none, m.tool_call_id, tryParseJSONValue env m.content.toJValue⟩ }]⟩
      else convertOpenAIToGeminiContent env m
    generationConfig :=
      { maxOutputTokens := match body.max_tokens with
          | some n => if n ≠ 0 then some n else none
          | none => none
        temperature := body.temperature
        topP := body.top_p }
    systemInstruction := ((msgs.filter fun m => m.role = "system").getLast?).map fun m =>
      ⟨none, [{ text := some (match m.content with | .str s => s | c => extractTextContent c) }]⟩
    tools :=
      match body.tools with
      | none => none
      | some ts =>
        let validTools := ts.filter fun t =>
          match t.function with
          | some f => f.name ≠ ""
          | none => false
        if validTools.isEmpty then none
        else some [⟨validTools.map fun t =>
          let f := (t.function).getD {name := ""}
          { name := f.name
            description := f.description.getD ""
            parameters := some (f.parameters.getD (.obj [("type", .str "object"), ("properties", .obj [])])) }⟩] }

end ToOpenAIJs

namespace GeminiJs

/-- The `tool_call_id → name` map built from assistant messages' function
tool calls (id and name truthy); later entries overwrite earlier ones. -/
def buildTcID2Name (msgs : List OMsg) : List (String × String) :=
  msgs.foldl (fun acc m =>
    if m.role = "assistant" then
      match m.tool_calls with
      | some tcs => tcs.foldl (fun acc tc =>
          let fname := (tc.function.map (·.name)).getD ""
          if tc.ttype = "function" ∧ tc.id ≠ "" ∧ fname ≠ "" then
            acc.filter (fun e => e.1 ≠ tc.id) ++ [(tc.id, fname)]
          else acc) acc
      | none => acc
    else acc) []

/-- One step of the tool-responses cache construction: record a tool-role
message's content under its (truthy) `tool_call_id`, overwriting in place. -/
def toolResponsesStep (acc : List (String × OContent)) (m : OMsg) : List (String × OContent) :=
  if m.role = "tool" then
    match m.tool_call_id with
    | some fid => if fid ≠ "" then acc.filter (fun e => e.1 ≠ fid) ++ [(fid, m.content)] else acc
    | none => acc
  else acc

/-- The `tool_call_id → content` cache built from tool-role messages (id
truthy); later entries overwrite earlier ones. -/
def buildToolResponses (msgs : List OMsg) : List (String × OContent) :=
  msgs.foldl toolResponsesStep []

/-- Modelled from the spec: `convertOpenAIContentToParts` is imported from
`helpers/geminiHelper.js`, which is not part of the sources; per §4.1/§4.2 a
plain non-empty string becomes a single text part, an array is converted
element-by-element (text parts, `image_url` entries whose `data:` URI matches
the `data:<mediaType>;base64,<payload>` pattern become inline data, malformed
URIs and unrecognized kinds are dropped), and anything else yields no
parts. -/
def convertOpenAIContentToParts : OContent → List GPart
  | .str s => if s ≠ "" then [{ text := some s }] else []
  | .parts ps => ps.filterMap fun p =>
      match p with
      | .text t => if t ≠ "" then some { text := some t } else none
      | .image_url url =>
          match parseDataUri url with
          | some (mt, data) => some { inlineData := some ⟨mt, data⟩ }
          | none => none
      | _ => none
  | _ => []

/-- Look up the name used for a function response: the `tcID2Name` entry if
present, otherwise the `"ToolName-timestamp-index"` split of the id (keeping
everything but the two last hyphen-separated pieces), otherwise the id. -/
def functionResponseName (names : List (String × String)) (fid : String) : String :=
  match (names.find? (fun e => e.1 = fid)).map (·.2) with
  | some n => n
  | none =>
      let idParts := fid.splitOn "-"
      if idParts.length > 2 then String.intercalate "-" (idParts.take (idParts.length - 2))
      else fid

/-- Build one `functionResponse` part for tool-call id `fid`: the cached tool
content (default `"{}"` when absent or falsy) is JSON-parsed, wrapped as
`{result: …}` when the parse gives `null` (wrapping the unparsed value) or a
non-object, and the outcome is always nested once more under
`response: {result: …}`. -/
def mkFunctionResponsePart (env : Env) (responses : List (String × OContent))
    (names : List (String × String)) (fid : String) : GPart :=
  let resp : JValue :=
    match (responses.find? (fun e => e.1 = fid)).map (·.2) with
    | some c => if c.truthy then c.toJValue else .str "{}"
    | none => .str "{}"
  let parsedResp := tryParseJSONValue env resp
  let parsedResp :=
    if parsedResp.isNull then .obj [("result", resp)]
    else if ¬ parsedResp.typeofObject then .obj [("result", parsedResp)]
    else parsedResp
  { functionResponse := some ⟨some fid, some (functionResponseName names fid), .obj [("result", parsedResp)]⟩ }

/-- The `contents` entries emitted for one message by the conversion loop of
`openaiToGeminiBase` (`n` is `body.messages.length`; system messages with
`n > 1` feed `systemInstruction` instead and emit nothing; tool messages are
consumed via the lookup maps and emit nothing). -/
def emitContents (env : Env) (names : List (String × String))
    (responses : List (String × OContent)) (n : Nat) (msg : OMsg) : List GContent :=
  if msg.role = "system" ∧ n > 1 then []
  else if msg.role = "user" ∨ (msg.role = "system" ∧ n = 1) then
    match convertOpenAIContentToParts msg.content with
    | [] => []
    | ps => [⟨"user", ps⟩]
  else if msg.role = "assistant" then
    let textParts : List GPart :=
      if msg.content.truthy then
        let t := match msg.content with | .str s => s | c => extractTextContent c
        if t ≠ "" then [{ text := some t }] else []
      else []
    match msg.tool_calls with
    | some tcs =>
        let fnTcs := tcs.filter (fun tc => tc.ttype = "function")
        let callParts : List GPart := fnTcs.map fun tc =>
          let argStr := match tc.function.bind (·.arguments) with
            | some a => if a ≠ "" then a else "{}"
            | none => "{}"
          { thoughtSignature := some env.thinkingSignature
            functionCall := some ⟨some tc.id, (tc.function.map (·.name)).getD "", tryParseJSONValue env (.str argStr)⟩ }
        let parts := textParts ++ callParts
        let toolParts : List GPart :=
          (fnTcs.map (·.id)).map (mkFunctionResponsePart env responses names)
        (if ¬ parts.isEmpty then [⟨"model", parts⟩] else []) ++
        (if ¬ toolParts.isEmpty then [⟨"user", toolParts⟩] else [])
    | none => if ¬ textParts.isEmpty then [⟨"model", textParts⟩] else []
  else []

/-- `openaiToGeminiBase`: convert an OpenAI request to the Gemini format
shared by all Gemini-family variants. -/
def openaiToGeminiBase (env : Env) (model : String) (body : OBody) (_stream : Bool) : GemBody :=
  let msgs := body.messages.getD []
  let names := buildTcID2Name msgs
  let responses := buildToolResponses msgs
  { model := model
    contents := msgs.flatMap (emitContents env names responses msgs.length)
    generationConfig :=
      { temperature := body.temperature
        topP := body.top_p
        topK := body.top_k
        maxOutputTokens := body.max_tokens }
    safetySettings := env.safetySettings
    systemInstruction :=
      if msgs.length > 1 then
        ((msgs.filter fun m => m.role = "system").getLast?).map fun m =>
          ⟨some "user", [{ text := some (match m.content with | .str s => s | c => extractTextContent c) }]⟩
      else none
    tools :=
      match body.tools with
      | none => none
      | some ts =>
        if ts.isEmpty then none
        else
          let functionDeclarations := ts.filterMap fun t =>
            if t.ttype = "function" ∧ t.function.isSome then
              let f := t.function.getD {name := ""}
              some ({ name := f.name
                      description := f.description.getD ""
                      parameters := some (f.parameters.getD (.obj [("type", .str "object"), ("properties", .obj [])])) } : GFnDecl)
            else none
          if functionDeclarations.isEmpty then none
          else some [⟨functionDeclarations⟩] }

/-- `openaiToGemini` (standard API): the base conversion unchanged. -/
def openaiToGemini (env : Env) (model : String) (body : OBody) (stream : Bool) : GemBody :=
  openaiToGeminiBase env model body stream

/-- Clean each function declaration's schema, putting it under `parameters`
for Claude-signalling model names and under `parametersJsonSchema` (removing
`parameters`) otherwise. -/
def cleanDecl (env : Env) (isClaude : Bool) (fn : GFnDecl) : GFnDecl :=
  match fn.parameters with
  | some p =>
      let cleanedSchema := env.cleanSchema p
      if isClaude then { fn with parameters := some cleanedSchema }
      else { fn with parametersJsonSchema := some cleanedSchema, parameters := none }
  | none => fn

/-- `openaiToGeminiCLI`: the base conversion plus the thinking-budget
derivation and the JSON-schema cleanup. -/
def openaiToGeminiCLI (env : Env) (model : String) (body : OBody) (stream : Bool) : GemBody :=
  let gemini := openaiToGeminiBase env model body stream
  let isClaude := (model.toLower.splitOn "claude").length > 1
  let gemini :=
    match body.reasoning_effort with
    | some e =>
        if e ≠ "" then
          let budget : Int :=
            if e = "low" then 1024 else if e = "medium" then 8192
            else if e = "high" then 32768 else 8192
          { gemini with generationConfig :=
              { gemini.generationConfig with thinkingConfig := some ⟨budget, true⟩ } }
        else gemini
    | none => gemini
  let gemini :=
    match body.thinking with
    | some th =>
        if th.ttype = "enabled" then
          match th.budget_tokens with
          | some b =>
              if b ≠ 0 then
                { gemini with generationConfig :=
                    { gemini.generationConfig with thinkingConfig := some ⟨b, true⟩ } }
              else gemini
          | none => gemini
        else gemini
    | none => gemini
  match gemini.tools with
  | some (g :: gs) =>
      { gemini with tools := some (⟨g.functionDeclarations.map (cleanDecl env isClaude)⟩ :: gs) }
  | _ => gemini

/-- `wrapInCloudCodeEnvelope`: nest a Gemini-CLI body in the Cloud-Code
transport envelope with project/request/session identifiers. -/
def wrapInCloudCodeEnvelope (env : Env) (model : String) (geminiCLI : GemBody)
    (credentials : Option String) : CloudCodeEnvelope :=
  { project := credentials.getD env.projectId
    model := model
    userAgent := "gemini-cli"
    requestId := env.requestId
    request :=
      { sessionId := env.sessionId
        contents := geminiCLI.contents
        systemInstruction := geminiCLI.systemInstruction
        generationConfig := geminiCLI.generationConfig
        safetySettings := geminiCLI.safetySettings
        tools := geminiCLI.tools } }

/-- `openaiToAntigravity`: the Gemini-CLI conversion wrapped in the
Cloud-Code envelope. -/
def openaiToAntigravity (env : Env) (model : String) (body : OBody) (stream : Bool)
    (credentials : Option String) : CloudCodeEnvelope :=
  wrapInCloudCodeEnvelope env model (openaiToGeminiCLI env model body stream) credentials

end GeminiJs

/-- Insertion-order-preserving `Map.set`: replace in place when the key
exists, append otherwise (JS `Map` semantics). -/
def alSet {α β : Type} [DecidableEq α] : List (α × β) → α → β → List (α × β)
  | [], k, v => [(k, v)]
  | (k', v') :: r, k, v => if k' = k then (k, v) :: r else (k', v') :: alSet r k v

/-- `Map.get`. -/
def alGet {α β : Type} [DecidableEq α] (l : List (α × β)) (k : α) : Option β :=
  (l.find? fun e => e.1 = k).map (·.2)

/-- JS `a || b` over two optional strings, `none` for a falsy result. -/
def firstTruthy (a b : Option String) : Option String :=
  match a with
  | some s => if s ≠ "" then some s else (match b with
      | some t => if t ≠ "" then some t else none
      | none => none)
  | none => match b with
      | some t => if t ≠ "" then some t else none
      | none => none

/-- JS `String.prototype.replace` with a string pattern: remove/replace the
first occurrence only (used with an empty replacement). -/
def replaceFirst (s pat : String) : String :=
  match s.splitOn pat with
  | [] => s
  | [_] => s
  | a :: b :: rest => a ++ b ++ String.join (rest.map fun r => pat ++ r)

namespace GeminiJs

/-- A `functionCall` of a provider (Gemini) response part. -/
structure GRFuncCall where
  name : String
  args : Option JValue := none
  deriving Repr

/-- Inline data of a provider response part (both key spellings). -/
structure GRInline where
  mimeType : Option String := none
  mime_type : Option String := none
  data : Option String := none
  deriving Repr

/-- A part of a provider (Gemini) response candidate. -/
structure GRPart where
  text : Option String := none
  thought : Bool := false
  thoughtSignature : Option String := none
  thought_signature : Option String := none
  functionCall : Option GRFuncCall := none
  inlineData : Option GRInline := none
  inline_data : Option GRInline := none
  deriving Repr

/-- The `content` of a provider response candidate. -/
structure GCContent where
  parts : Option (List GRPart) := none
  deriving Repr

/-- A provider response candidate. -/
structure GCandidate where
  content : Option GCContent := none
  finishReason : Option String := none
  deriving Repr

/-- Provider usage metadata. -/
structure GUsage where
  promptTokenCount : Option Int := none
  thoughtsTokenCount : Option Int := none
  candidatesTokenCount : Option Int := none
  totalTokenCount : Option Int := none
  deriving Repr

/-- The unwrapped provider response. -/
structure GResp where
  candidates : List GCandidate := []
  responseId : Option String := none
  modelVersion : Option String := none
  usageMetadata : Option GUsage := none
  deriving Repr

/-- A provider stream chunk: either an Antigravity wrapper with a nested
`response`, or the response fields at top level (`top`). -/
structure GChunk where
  response : Option GResp := none
  top : GResp := {}
  deriving Repr

/-- The per-exchange state of the Gemini-to-OpenAI response translator. -/
structure GState where
  messageId : Option String := none
  model : Option String := none
  functionIndex : Nat := 0
  toolCalls : List (Nat × OTCDelta) := []
  finishReason : Option String := none
  usage : Option OUsageOut := none
  deriving Repr

/-- Build one emitted OpenAI chunk from the current state. -/
def gMkChunk (env : Env) (st : GState) (delta : ODelta) (finish : Option String) : OChunk :=
  { id := "chatcmpl-" ++ st.messageId.getD "undefined"
    created := env.nowMs / 1000
    model := st.model
    delta := delta
    finish_reason := finish }

/-- The tool-call delta built for one provider `functionCall` part. -/
def gToolCallOf (env : Env) (fc : GRFuncCall) (idx : Nat) : OTCDelta :=
  let fcArgs : JValue := match fc.args with
    | some a => if a.truthy then a else .obj []
    | none => .obj []
  { index := idx
    id := some (fc.name ++ "-" ++ toString env.nowMs ++ "-" ++ toString idx)
    ttype := some "function"
    fname := some fc.name
    arguments := some (env.stringify fcArgs) }

/-- Process one part of a provider candidate, threading the state. -/
def processGRPart (env : Env) (acc : List OChunk × GState) (p : GRPart) : List OChunk × GState :=
  let (chunks, st) := acc
  let hasThoughtSig := (firstTruthy p.thoughtSignature p.thought_signature).isSome
  let emitFC (chunks : List OChunk) (st : GState) : List OChunk × GState :=
    match p.functionCall with
    | some fc =>
        let idx := st.functionIndex
        let tc := gToolCallOf env fc idx
        let st := { st with functionIndex := idx + 1, toolCalls := alSet st.toolCalls idx tc }
        (chunks ++ [gMkChunk env st { tool_calls := some [tc] } none], st)
    | none => (chunks, st)
  if hasThoughtSig then
    let chunks :=
      match p.text with
      | some t =>
          if t ≠ "" then
            chunks ++ [gMkChunk env st
              (if p.thought then { reasoning_content := some t } else { content := some t }) none]
          else chunks
      | none => chunks
    emitFC chunks st
  else
    let chunks :=
      match p.text with
      | some t => if t ≠ "" then chunks ++ [gMkChunk env st { content := some t } none] else chunks
      | none => chunks
    let (chunks, st) := emitFC chunks st
    let chunks :=
      match (match p.inlineData with | some d => some d | none => p.inline_data) with
      | some d =>
          (match d.data with
           | some data =>
              if data ≠ "" then
                let mimeType := (firstTruthy d.mimeType d.mime_type).getD "image/png"
                chunks ++ [gMkChunk env st
                  { images := some ["data:" ++ mimeType ++ ";base64," ++ data] } none]
              else chunks
           | none => chunks)
      | none => chunks
    (chunks, st)

/-- `geminiToOpenAIResponse`: convert one Gemini-family provider chunk to
OpenAI chunks (`none` models returning `null`). -/
def geminiToOpenAIResponse (env : Env) (chunk : Option GChunk) (state : GState) :
    Option (List OChunk) × GState :=
  match chunk with
  | none => (none, state)
  | some ch =>
    let response := ch.response.getD ch.top
    match response.candidates.head? with
    | none => (none, state)
    | some candidate =>
      let (results, state) :=
        if state.messageId.isNone then
          let mid := (firstTruthy response.responseId none).getD ("msg_" ++ toString env.nowMs)
          let mv := (firstTruthy response.modelVersion none).getD "gemini"
          let st := { state with messageId := some mid, model := some mv, functionIndex := 0 }
          ([gMkChunk env st { role := some "assistant" } none], st)
        else ([], state)
      let parts := ((candidate.content.map (·.parts)).join).getD []
      let (results, state) := parts.foldl (processGRPart env) (results, state)
      let (results, state) :=
        match candidate.finishReason with
        | some fr =>
            if fr ≠ "" then
              let lower := fr.toLower
              let finishReason :=
                if lower = "stop" ∧ state.toolCalls.length > 0 then "tool_calls" else lower
              (results ++ [gMkChunk env state {} (some finishReason)],
               { state with finishReason := some finishReason })
            else (results, state)
        | none => (results, state)
      let state :=
        match (match response.usageMetadata with
               | some u => some u
               | none => ch.top.usageMetadata) with
        | some u =>
            let promptTokens := u.promptTokenCount.getD 0 + u.thoughtsTokenCount.getD 0
            let usage : OUsageOut :=
              { prompt_tokens := promptTokens
                completion_tokens := u.candidatesTokenCount.getD 0
                total_tokens := u.totalTokenCount.getD 0
                reasoning_tokens :=
                  if u.thoughtsTokenCount.getD 0 > 0 then u.thoughtsTokenCount else none }
            { state with usage := some usage }
        | none => state
      (if results.isEmpty then none else some results, state)

end GeminiJs

namespace ClaudeStreamJs

/-- The `content_block` payload of a `content_block_start` event (the
`tool_use` variant's constant `input: {}` is implicit). -/
inductive CSBlock where
  | text : CSBlock
  | thinking : CSBlock
  | tool_use (id : String) (name : String) : CSBlock
  | other : CSBlock
  deriving Repr

/-- The `delta` payload of a `content_block_delta` event; `input_json_delta`
carries the `partial_json` fragment. -/
inductive CSDelta where
  | text_delta (t : String) : CSDelta
  | thinking_delta (t : String) : CSDelta
  | input_json_delta (fragment : String) : CSDelta
  | other : CSDelta
  deriving Repr

/-- A Claude provider stream event (`chunk.type` plus the fields read by the
translator; `other` covers unrecognized event types). -/
inductive CEvent where
  | message_start (id : Option String) (model : Option String) : CEvent
  | content_block_start (index : Nat) (block : Option CSBlock) : CEvent
  | content_block_delta (index : Nat) (delta : Option CSDelta) : CEvent
  | content_block_stop (index : Nat) : CEvent
  | message_delta (stop_reason : Option String) : CEvent
  | message_stop : CEvent
  | other : CEvent
  deriving Repr

/-- Usage fields accumulated on the Claude-to-OpenAI state. -/
structure CUsageIn where
  input_tokens : Option Int := none
  output_tokens : Option Int := none
  deriving Repr

/-- The per-exchange state of the Claude-to-OpenAI response translator. -/
structure CState where
  messageId : Option String := none
  model : Option String := none
  toolCallIndex : Nat := 0
  textBlockStarted : Bool := false
  inThinkingBlock : Bool := false
  currentBlockIndex : Option Nat := none
  thinkingBlockStarted : Bool := false
  toolCalls : List (Nat × OTCDelta) := []
  finishReason : Option String := none
  finishReasonSent : Bool := false
  usage : Option CUsageIn := none
  deriving Repr

/-- `createChunk`: build one OpenAI chunk from the current state. -/
def createChunk (env : Env) (st : CState) (delta : ODelta) (finish : Option String := none) : OChunk :=
  { id := "chatcmpl-" ++ st.messageId.getD "undefined"
    created := env.nowMs / 1000
    model := st.model
    delta := delta
    finish_reason := finish }

/-- `convertStopReason`: Claude `stop_reason` to OpenAI `finish_reason`. -/
def convertStopReason (reason : String) : String :=
  if reason = "end_turn" then "stop"
  else if reason = "max_tokens" then "length"
  else if reason = "tool_use" then "tool_calls"
  else if reason = "stop_sequence" then "stop"
  else "stop"

/-- `convertFinishReason`: OpenAI `finish_reason` to Claude `stop_reason`. -/
def convertFinishReason (reason : String) : String :=
  if reason = "stop" then "end_turn"
  else if reason = "length" then "max_tokens"
  else if reason = "tool_calls" then "tool_use"
  else "end_turn"

/-- `claudeToOpenAIResponse`: convert one Claude stream event to OpenAI
chunks (`none` models returning `null`); the `console.log` side effect of
the `message_start` branch is ignored. -/
def claudeToOpenAIResponse (env : Env) (chunk : Option CEvent) (state : CState) :
    Option (List OChunk) × CState :=
  match chunk with
  | none => (none, state)
  | some ev =>
    match ev with
    | .message_start id model =>
        let mid := (firstTruthy id none).getD ("msg_" ++ toString env.nowMs)
        let st := { state with messageId := some mid, model := model, toolCallIndex := 0 }
        (some [createChunk env st { role := some "assistant" }], st)
    | .content_block_start index block =>
        match block with
        | some .text => (none, { state with textBlockStarted := true })
        | some .thinking =>
            let st := { state with inThinkingBlock := true, currentBlockIndex := some index }
            (some [createChunk env st { content := some "<think>" }], st)
        | some (.tool_use id name) =>
            let toolCallIndex := state.toolCallIndex
            let toolCall : OTCDelta :=
              { index := toolCallIndex, id := some id, ttype := some "function"
                fname := some name, arguments := some "" }
            let st := { state with toolCallIndex := toolCallIndex + 1
                                   toolCalls := alSet state.toolCalls index toolCall }
            (some [createChunk env st { tool_calls := some [toolCall] }], st)
        | _ => (none, state)
    | .content_block_delta index delta =>
        match delta with
        | some (.text_delta t) =>
            if t ≠ "" then (some [createChunk env state { content := some t }], state)
            else (none, state)
        | some (.thinking_delta t) =>
            if t ≠ "" then (some [createChunk env state { content := some t }], state)
            else (none, state)
        | some (.input_json_delta f) =>
            if f ≠ "" then
              match alGet state.toolCalls index with
              | some toolCall =>
                  let toolCall' := { toolCall with arguments := some (toolCall.arguments.getD "" ++ f) }
                  let st := { state with toolCalls := alSet state.toolCalls index toolCall' }
                  (some [createChunk env st
                    { tool_calls := some [{ index := toolCall.index, id := toolCall.id
                                            arguments := some f }] }], st)
              | none => (none, state)
            else (none, state)
        | _ => (none, state)
    | .content_block_stop index =>
        let (results, st) :=
          if state.inThinkingBlock ∧ state.currentBlockIndex = some index then
            ([createChunk env state { content := some "</think>" }],
             { state with inThinkingBlock := false })
          else ([], state)
        let st := { st with textBlockStarted := false, thinkingBlockStarted := false }
        (if results.isEmpty then none else some results, st)
    | .message_delta stopReason =>
        match firstTruthy stopReason none with
        | some sr =>
            let fr := convertStopReason sr
            let st := { state with finishReason := some fr, finishReasonSent := true }
            (some [createChunk env st {} (some fr)], st)
        | none => (none, state)
    | .message_stop =>
        if ¬ state.finishReasonSent then
          let finishReason :=
            match firstTruthy state.finishReason none with
            | some f => f
            | none => if state.toolCalls.length > 0 then "tool_calls" else "stop"
          let usage := state.usage.map fun u =>
            ({ prompt_tokens := u.input_tokens.getD 0
               completion_tokens := u.output_tokens.getD 0
               total_tokens := u.input_tokens.getD 0 + u.output_tokens.getD 0 } : OUsageOut)
          let st := { state with finishReasonSent := true }
          (some [{ createChunk env st {} (some finishReason) with usage := usage }], st)
        else (none, state)
    | .other => (none, state)

/-- A recorded tool call of the OpenAI-to-Claude response translator. -/
structure OCTool where
  id : String
  name : String
  blockIndex : Nat
  deriving Repr

/-- The per-exchange state of the OpenAI-to-Claude response translator. -/
structure OCState where
  messageStartSent : Bool := false
  messageId : String := ""
  model : String := ""
  nextBlockIndex : Nat := 0
  thinkingBlockStarted : Bool := false
  thinkingBlockIndex : Nat := 0
  textBlockStarted : Bool := false
  textBlockClosed : Bool := false
  textBlockIndex : Nat := 0
  toolCalls : List (Nat × OCTool) := []
  deriving Repr

/-- An emitted Claude stream event (the constant sub-fields of
`message_start` — empty content, null stop reason, zeroed usage — and the
constant `usage: {output_tokens: 0}` of `message_delta` are implicit). -/
inductive COutEvent where
  | message_start (id : String) (model : String) : COutEvent
  | content_block_start (index : Nat) (block : CSBlock) : COutEvent
  | content_block_delta (index : Nat) (delta : CSDelta) : COutEvent
  | content_block_stop (index : Nat) : COutEvent
  | message_delta (stop_reason : String) : COutEvent
  | message_stop : COutEvent
  deriving Repr

/-- `stopThinkingBlock`: close the thinking block if one is open. -/
def stopThinkingBlock (st : OCState) (results : List COutEvent) : OCState × List COutEvent :=
  if ¬ st.thinkingBlockStarted then (st, results)
  else ({ st with thinkingBlockStarted := false },
        results ++ [.content_block_stop st.thinkingBlockIndex])

/-- `stopTextBlock`: close the text block if one is open and not closed. -/
def stopTextBlock (st : OCState) (results : List COutEvent) : OCState × List COutEvent :=
  if ¬ st.textBlockStarted ∨ st.textBlockClosed then (st, results)
  else ({ st with textBlockClosed := true, textBlockStarted := false },
        results ++ [.content_block_stop st.textBlockIndex])

/-- A `tool_calls` entry of an incoming OpenAI delta. -/
structure TCIn where
  index : Option Nat := none
  id : Option String := none
  fname : Option String := none
  arguments : Option String := none
  deriving Repr

/-- An incoming OpenAI `delta` object. -/
structure DeltaIn where
  content : Option String := none
  reasoning_content : Option String := none
  reasoning : Option String := none
  tool_calls : Option (List TCIn) := none
  deriving Repr

/-- An incoming OpenAI choice. -/
structure ChoiceIn where
  delta : Option DeltaIn := none
  finish_reason : Option String := none
  deriving Repr

/-- The `extend_fields` of an incoming chunk (alternate trace ids). -/
structure ExtFields where
  requestId : Option String := none
  traceId : Option String := none
  deriving Repr

/-- An incoming OpenAI stream chunk. -/
structure OChunkIn where
  id : Option String := none
  model : Option String := none
  choices : List ChoiceIn := []
  extend_fields : Option ExtFields := none
  deriving Repr

/-- Process one incoming tool-call delta entry. -/
def processTCIn (st : OCState) (results : List COutEvent) (tc : TCIn) :
    OCState × List COutEvent :=
  let idx := tc.index.getD 0
  let (st, results) :=
    match firstTruthy tc.id none with
    | some tcId =>
        let (st, results) := stopThinkingBlock st results
        let (st, results) := stopTextBlock st results
        let toolBlockIndex := st.nextBlockIndex
        let name := tc.fname.getD ""
        let st := { st with nextBlockIndex := toolBlockIndex + 1
                            toolCalls := alSet st.toolCalls idx ⟨tcId, name, toolBlockIndex⟩ }
        (st, results ++ [COutEvent.content_block_start toolBlockIndex (.tool_use tcId name)])
    | none => (st, results)
  match firstTruthy tc.arguments none with
  | some args =>
      match alGet st.toolCalls idx with
      | some toolInfo =>
          (st, results ++ [COutEvent.content_block_delta toolInfo.blockIndex (.input_json_delta args)])
      | none => (st, results)
  | none => (st, results)

/-- `openaiToClaudeResponse`: convert one OpenAI stream chunk to Claude
events (`none` models returning `null`). -/
def openaiToClaudeResponse (env : Env) (chunk : Option OChunkIn) (state : OCState) :
    Option (List COutEvent) × OCState :=
  match chunk with
  | none => (none, state)
  | some ch =>
    match ch.choices.head? with
    | none => (none, state)
    | some choice =>
      let (st, results) :=
        if ¬ state.messageStartSent then
          let mid := (ch.id.map fun s => replaceFirst s "chatcmpl-").bind fun s =>
            if s ≠ "" then some s else none
          let mid := mid.getD ("msg_" ++ toString env.nowMs)
          let mid :=
            if mid = "" ∨ mid = "chat" ∨ mid.length < 8 then
              ((ch.extend_fields.bind fun e => firstTruthy e.requestId e.traceId)).getD
                ("msg_" ++ toString env.nowMs)
            else mid
          let mv := (firstTruthy ch.model none).getD "unknown"
          let st := { state with messageStartSent := true, messageId := mid, model := mv
                                 nextBlockIndex := 0 }
          (st, [COutEvent.message_start mid mv])
        else (state, [])
      let reasoningContent :=
        firstTruthy (choice.delta.bind (fun d => d.reasoning_content)) (choice.delta.bind (fun d => d.reasoning))
      let (st, results) :=
        match reasoningContent with
        | some rc =>
            let (st, results) := stopTextBlock st results
            let (st, results) :=
              if ¬ st.thinkingBlockStarted then
                let idx := st.nextBlockIndex
                ({ st with thinkingBlockIndex := idx, nextBlockIndex := idx + 1
                           thinkingBlockStarted := true },
                 results ++ [COutEvent.content_block_start idx .thinking])
              else (st, results)
            (st, results ++ [COutEvent.content_block_delta st.thinkingBlockIndex (.thinking_delta rc)])
        | none => (st, results)
      let (st, results) :=
        match firstTruthy (choice.delta.bind (fun d => d.content)) none with
        | some c =>
            let (st, results) := stopThinkingBlock st results
            let (st, results) :=
              if ¬ st.textBlockStarted then
                let idx := st.nextBlockIndex
                ({ st with textBlockIndex := idx, nextBlockIndex := idx + 1
                           textBlockStarted := true, textBlockClosed := false },
                 results ++ [COutEvent.content_block_start idx .text])
              else (st, results)
            (st, results ++ [COutEvent.content_block_delta st.textBlockIndex (.text_delta c)])
        | none => (st, results)
      let (st, results) :=
        match choice.delta.bind (fun d => d.tool_calls) with
        | some tcs => tcs.foldl (fun (acc : OCState × List COutEvent) tc =>
            processTCIn acc.1 acc.2 tc) (st, results)
        | none => (st, results)
      let (st, results) :=
        match firstTruthy choice.finish_reason none with
        | some fr =>
            let (st, results) := stopThinkingBlock st results
            let (st, results) := stopTextBlock st results
            let results := results ++ (st.toolCalls.map fun (e : Nat × OCTool) =>
              COutEvent.content_block_stop e.2.blockIndex)
            (st, results ++ [COutEvent.message_delta (convertFinishReason fr), COutEvent.message_stop])
        | none => (st, results)
      (if results.isEmpty then none else some results, st)

end ClaudeStreamJs

/-- Whether a Claude stream event is a `message_delta` carrying a (truthy)
stop reason. -/
def carriesStopReason : ClaudeStreamJs.CEvent → Bool
  | .message_delta (some sr) => sr != ""
  | _ => false

/-- Whether the request carries an explicit (enabled, non-zero) thinking
budget. -/
def hasExplicitBudget (body : OBody) : Bool :=
  match body.thinking with
  | some th => th.ttype == "enabled" &&
      (match th.budget_tokens with | some b => b != 0 | none => false)
  | none => false

/-- Whether `body.reasoning_effort` is falsy (absent or empty). -/
def effortFalsy (body : OBody) : Bool :=
  match body.reasoning_effort with
  | some e => e == ""
  | none => true

/-- The effort-keyword budget table of the spec: `low`/`medium`/`high` map to
1024/8192/32768, anything else to the default 8192. -/
def effortBudget (e : String) : Int :=
  if e = "low" then 1024 else if e = "medium" then 8192
  else if e = "high" then 32768 else 8192

/-- The raw tool-response value the spec's lookup rule selects for call id
`fid`: the content of the last tool-role message with that `tool_call_id`
when it exists and is truthy, else the JSON string `"{}"`. -/
def specToolResponseRaw (msgs : List OMsg) (fid : String) : JValue :=
  match (msgs.filter fun m => m.role = "tool" ∧ m.tool_call_id = some fid).getLast? with
  | some m => if m.content.truthy then m.content.toJValue else .str "{}"
  | none => .str "{}"

/-- The amended claim's description of a `functionResponse.response` value:
the raw looked-up value is JSON-parsed; a `null` parse wraps the raw value as
`{result: raw}`, a non-object parse wraps the parsed value as
`{result: parsed}`, an object parse stays as is — and the outcome is always
nested once more under `{result: …}`. -/
def specFunctionResponseValue (env : Env) (raw : JValue) : JValue :=
  let parsed := tryParseJSONValue env raw
  .obj [("result",
    if parsed.isNull then .obj [("result", raw)]
    else if ¬ parsed.typeofObject then .obj [("result", parsed)]
    else parsed)]

/-- The `arguments` fragments that one emitted chunk carries for output
tool-call index `k` (an absent `tool_calls` delta or a different index
contributes nothing; the tool-call-open delta contributes its empty
`arguments`). -/
def chunkArgsFor (k : Nat) (c : OChunk) : String :=
  match c.delta.tool_calls with
  | some tcds => String.join (tcds.map fun t => if t.index = k then t.arguments.getD "" else "")
  | none => ""

/-- Concatenation, in emission order, of the `arguments` fragments carried
for output index `k` by a chunk list. -/
def emittedArgsFor (k : Nat) : List OChunk → String
  | [] => ""
  | c :: cs => chunkArgsFor k c ++ emittedArgsFor k cs

/-- Concatenation of the provider `input_json_delta` fragments at provider
block index `i` in an event list. -/
def inputFragsAt (i : Nat) : List ClaudeStreamJs.CEvent → String
  | [] => ""
  | (.content_block_delta j (some (.input_json_delta f))) :: es =>
      (if j = i then f else "") ++ inputFragsAt i es
  | _ :: es => inputFragsAt i es

/-- Whether an event is a `message_start`. -/
def isMessageStart : ClaudeStreamJs.CEvent → Bool
  | .message_start _ _ => true
  | _ => false

/-- Whether an event is a `content_block_start` of type `tool_use` at
provider index `i`. -/
def isToolUseStartAt (i : Nat) : ClaudeStreamJs.CEvent → Bool
  | .content_block_start j (some (.tool_use _ _)) => j = i
  | _ => false

/-- Fold `claudeToOpenAIResponse` over an event sequence, accumulating every
emitted chunk in order. -/
def claudeFold (env : Env) (es : List ClaudeStreamJs.CEvent) (acc : List OChunk)
    (st : ClaudeStreamJs.CState) : List OChunk × ClaudeStreamJs.CState :=
  match es with
  | [] => (acc, st)
  | e :: rest =>
      let step := ClaudeStreamJs.claudeToOpenAIResponse env (some e) st
      claudeFold env rest (acc ++ step.1.getD []) step.2

/-- The per-exchange invariant of the Claude-to-OpenAI state: every recorded
tool call's output index is below the counter, and entries recorded under
different provider indices carry different output indices. -/
def claudeStateInv (st : ClaudeStreamJs.CState) : Prop :=
  (∀ e ∈ st.toolCalls, e.2.index < st.toolCallIndex) ∧
  (∀ e₁ ∈ st.toolCalls, ∀ e₂ ∈ st.toolCalls, e₁.1 ≠ e₂.1 → e₁.2.index ≠ e₂.2.index)

/-- Whether a Claude message is a standalone tool-result message: user role
with a non-empty content made only of `tool_result` blocks. -/
def isStandaloneToolResultMsg (m : CMsg) : Bool :=
  m.role == "user" && !m.content.isEmpty && m.content.all ToOpenAIJs.isToolResultBlock

/-- C2: `convertStopReason` maps `tool_use`/`max_tokens`/`end_turn` to
`tool_calls`/`length`/`stop`, `convertFinishReason` maps them back, composing
the two is the identity on both defined sets, and every input outside the
defined sets maps to `"stop"` resp. `"end_turn"`. -/
theorem c2_finish_reason_mapping (s u : String)
    (hs : s ≠ "end_turn" ∧ s ≠ "max_tokens" ∧ s ≠ "tool_use")
    (hu : u ≠ "stop" ∧ u ≠ "length" ∧ u ≠ "tool_calls") :
    ClaudeStreamJs.convertStopReason "tool_use" = "tool_calls" ∧
    ClaudeStreamJs.convertStopReason "max_tokens" = "length" ∧
    ClaudeStreamJs.convertStopReason "end_turn" = "stop" ∧
    ClaudeStreamJs.convertFinishReason "tool_calls" = "tool_use" ∧
    ClaudeStreamJs.convertFinishReason "length" = "max_tokens" ∧
    ClaudeStreamJs.convertFinishReason "stop" = "end_turn" ∧
    (∀ x ∈ (["tool_use", "max_tokens", "end_turn"] : List String),
      ClaudeStreamJs.convertFinishReason (ClaudeStreamJs.convertStopReason x) = x) ∧
    (∀ y ∈ (["tool_calls", "length", "stop"] : List String),
      ClaudeStreamJs.convertStopReason (ClaudeStreamJs.convertFinishReason y) = y) ∧
    ClaudeStreamJs.convertStopReason s = "stop" ∧
    ClaudeStreamJs.convertFinishReason u = "end_turn" := by
  obtain ⟨hs1, hs2, hs3⟩ := hs
  obtain ⟨hu1, hu2, hu3⟩ := hu
  refine ⟨rfl, rfl, rfl, rfl, rfl, rfl, by decide, by decide, ?_, ?_⟩
  · simp [ClaudeStreamJs.convertStopReason, hs1, hs2, hs3]
  · simp [ClaudeStreamJs.convertFinishReason, hu1, hu2, hu3]

/-- Witness for C2 at the concrete out-of-set inputs `"foo"` and `"bar"`. -/
theorem c2_finish_reason_mapping_witness :
    ClaudeStreamJs.convertStopReason "tool_use" = "tool_calls" ∧
    ClaudeStreamJs.convertStopReason "max_tokens" = "length" ∧
    ClaudeStreamJs.convertStopReason "end_turn" = "stop" ∧
    ClaudeStreamJs.convertFinishReason "tool_calls" = "tool_use" ∧
    ClaudeStreamJs.convertFinishReason "length" = "max_tokens" ∧
    ClaudeStreamJs.convertFinishReason "stop" = "end_turn" ∧
    (∀ x ∈ (["tool_use", "max_tokens", "end_turn"] : List String),
      ClaudeStreamJs.convertFinishReason (ClaudeStreamJs.convertStopReason x) = x) ∧
    (∀ y ∈ (["tool_calls", "length", "stop"] : List String),
      ClaudeStreamJs.convertStopReason (ClaudeStreamJs.convertFinishReason y) = y) ∧
    ClaudeStreamJs.convertStopReason "foo" = "stop" ∧
    ClaudeStreamJs.convertFinishReason "bar" = "end_turn" :=
  c2_finish_reason_mapping "foo" "bar" (by decide) (by decide)

/-- C4: translating `{messages:[{role:"system",content:"Be terse"},
{role:"user",content:"hi"}]}` to Claude form yields the fixed preamble block
followed by the cached system text block, and a single user message holding
the text block `"hi"`. -/
theorem c4_system_scenario (env : Env) (model : String) (stream : Bool) :
    (ToOpenAIJs.openaiToClaude env model
      { messages := some [{ role := "system", content := .str "Be terse" },
                          { role := "user", content := .str "hi" }] } stream).system =
      [⟨.text env.claudeSystemPrompt, none⟩,
       ⟨.text "Be terse", some ⟨"ephemeral", some "1h"⟩⟩] ∧
    (ToOpenAIJs.openaiToClaude env model
      { messages := some [{ role := "system", content := .str "Be terse" },
                          { role := "user", content := .str "hi" }] } stream).messages =
      [⟨"user", [⟨.text "hi", none⟩]⟩] :=
  ⟨rfl, rfl⟩

/-- C9: a `null` chunk, a chunk without a first choice
(`openaiToClaudeResponse`), and a chunk without a first candidate after
unwrapping the optional `response` envelope (`geminiToOpenAIResponse`) all
yield `null` with the state unchanged. -/
theorem c9_guard_returns_null :
    (∀ (env : Env) (st : ClaudeStreamJs.OCState),
      ClaudeStreamJs.openaiToClaudeResponse env none st = (none, st)) ∧
    (∀ (env : Env) (st : ClaudeStreamJs.OCState) (c : ClaudeStreamJs.OChunkIn),
      c.choices = [] → ClaudeStreamJs.openaiToClaudeResponse env (some c) st = (none, st)) ∧
    (∀ (env : Env) (st : GeminiJs.GState),
      GeminiJs.geminiToOpenAIResponse env none st = (none, st)) ∧
    (∀ (env : Env) (st : GeminiJs.GState) (g : GeminiJs.GChunk),
      (g.response.getD g.top).candidates = [] →
      GeminiJs.geminiToOpenAIResponse env (some g) st = (none, st)) := by
  refine ⟨fun env st => rfl, fun env st c hc => ?_, fun env st => rfl, fun env st g hg => ?_⟩
  · simp [ClaudeStreamJs.openaiToClaudeResponse, hc]
  · simp [GeminiJs.geminiToOpenAIResponse, hg]

/-- Witness for C9 at the empty chunk values. -/
theorem c9_guard_returns_null_witness :
    ClaudeStreamJs.openaiToClaudeResponse {} (some {}) {} = (none, {}) ∧
    GeminiJs.geminiToOpenAIResponse {} (some {}) {} = (none, {}) :=
  ⟨c9_guard_returns_null.2.1 {} {} {} rfl, c9_guard_returns_null.2.2.2 {} {} {} rfl⟩

/-- C10: an `input_json_delta` whose index has no recorded tool call emits
nothing and leaves the state (tool-call map and buffers included)
unchanged. -/
theorem c10_unrecorded_index_dropped (env : Env) (st : ClaudeStreamJs.CState)
    (i : Nat) (f : String) (h : alGet st.toolCalls i = none) :
    ClaudeStreamJs.claudeToOpenAIResponse env
      (some (.content_block_delta i (some (.input_json_delta f)))) st = (none, st) := by
  by_cases hf : f = "" <;> simp [ClaudeStreamJs.claudeToOpenAIResponse, hf, h]

/-- Witness for C10: a fresh state has no entry at index 0. -/
theorem c10_unrecorded_index_dropped_witness :
    ClaudeStreamJs.claudeToOpenAIResponse {}
      (some (.content_block_delta 0 (some (.input_json_delta "x")))) {} = (none, {}) :=
  c10_unrecorded_index_dropped {} {} 0 "x" rfl

/-- C5 counterexample: after a `message_delta` with a stop reason has set
`finishReasonSent`, a second such `message_delta` still emits a chunk with a
non-null `finish_reason`. -/
theorem c5_counterexample :
    ((ClaudeStreamJs.claudeToOpenAIResponse {} (some (.message_delta (some "end_turn")))
        ({} : ClaudeStreamJs.CState)).2).finishReasonSent = true ∧
    ((ClaudeStreamJs.claudeToOpenAIResponse {} (some (.message_delta (some "end_turn")))
        ((ClaudeStreamJs.claudeToOpenAIResponse {} (some (.message_delta (some "end_turn")))
          ({} : ClaudeStreamJs.CState)).2)).1) =
      some [{ id := "chatcmpl-undefined", created := 0, model := none, delta := {},
              finish_reason := some "stop" }] ∧
    (some "stop" : Option String) ≠ none :=
  ⟨rfl, rfl, by simp⟩

/-- C5 amended: `finishReasonSent`, once true, stays true, and after it is
true no further chunk with a non-null `finish_reason` is emitted — except by
an additional `message_delta` event that itself carries a stop reason, which
always emits a terminal chunk. -/
theorem c5_finish_reason_sent (env : Env) (e : ClaudeStreamJs.CEvent)
    (st : ClaudeStreamJs.CState) (h : st.finishReasonSent = true) :
    ((ClaudeStreamJs.claudeToOpenAIResponse env (some e) st).2).finishReasonSent = true ∧
    (carriesStopReason e = false →
      ∀ c ∈ ((ClaudeStreamJs.claudeToOpenAIResponse env (some e) st).1).getD [],
        c.finish_reason = none) := by
  rcases e with ⟨id, model⟩ | ⟨i, b⟩ | ⟨i, d⟩ | i | sr | _ | _
  · simp [ClaudeStreamJs.claudeToOpenAIResponse, ClaudeStreamJs.createChunk, h]
  · rcases b with _ | b
    · simp [ClaudeStreamJs.claudeToOpenAIResponse, h]
    · rcases b with _ | _ | ⟨tid, tname⟩ | _ <;>
        simp [ClaudeStreamJs.claudeToOpenAIResponse, ClaudeStreamJs.createChunk, h]
  · rcases d with _ | d
    · simp [ClaudeStreamJs.claudeToOpenAIResponse, h]
    · rcases d with t | t | f | _
      · by_cases ht : t = "" <;>
          simp [ClaudeStreamJs.claudeToOpenAIResponse, ClaudeStreamJs.createChunk, ht, h]
      · by_cases ht : t = "" <;>
          simp [ClaudeStreamJs.claudeToOpenAIResponse, ClaudeStreamJs.createChunk, ht, h]
      · by_cases hf : f = ""
        · simp [ClaudeStreamJs.claudeToOpenAIResponse, hf, h]
        · rcases htc : alGet st.toolCalls i with _ | tc <;>
            simp [ClaudeStreamJs.claudeToOpenAIResponse, ClaudeStreamJs.createChunk, hf, htc, h]
      · simp [ClaudeStreamJs.claudeToOpenAIResponse, h]
  · by_cases hc : st.inThinkingBlock ∧ st.currentBlockIndex = some i <;>
      simp [ClaudeStreamJs.claudeToOpenAIResponse, ClaudeStreamJs.createChunk, hc, h]
  · rcases sr with _ | s
    · simp [ClaudeStreamJs.claudeToOpenAIResponse, firstTruthy, h]
    · by_cases hs : s = "" <;>
        simp [ClaudeStreamJs.claudeToOpenAIResponse, firstTruthy, carriesStopReason, hs, h]
  · simp [ClaudeStreamJs.claudeToOpenAIResponse, h]
  · simp [ClaudeStreamJs.claudeToOpenAIResponse, h]

/-- Witness for C5's amended theorem: a `message_stop` after the terminal
chunk was sent emits nothing with a finish reason. -/
theorem c5_finish_reason_sent_witness :
    ((ClaudeStreamJs.claudeToOpenAIResponse {} (some .message_stop)
        ({ finishReasonSent := true } : ClaudeStreamJs.CState)).2).finishReasonSent = true ∧
    (carriesStopReason .message_stop = false →
      ∀ c ∈ ((ClaudeStreamJs.claudeToOpenAIResponse {} (some .message_stop)
          ({ finishReasonSent := true } : ClaudeStreamJs.CState)).1).getD [],
        c.finish_reason = none) :=
  c5_finish_reason_sent {} .message_stop { finishReasonSent := true } rfl

/-- C6 counterexample: with neither an explicit thinking budget nor any
`reasoning_effort`, `openaiToGeminiCLI` sets no `thinkingConfig` at all —
the budget is not defaulted to 8192. -/
theorem c6_counterexample :
    ¬ ∃ tc : ThinkCfg,
      (GeminiJs.openaiToGeminiCLI {} "gemini" ({} : OBody) true).generationConfig.thinkingConfig
        = some tc ∧ tc.thinkingBudget = 8192 := by
  rintro ⟨tc, h, -⟩
  have hnone : (GeminiJs.openaiToGeminiCLI {} "gemini" ({} : OBody)
      true).generationConfig.thinkingConfig = none := rfl
  rw [hnone] at h
  cases h

/-- C6 amended: the explicit enabled thinking budget wins; otherwise a truthy
`reasoning_effort` keyword yields the 1024/8192/32768 table with default
8192 for unrecognized keywords; when neither an explicit budget nor any
effort value is given, no `thinkingConfig` is set at all. -/
theorem c6_thinking_budget (env : Env) (model : String) (body : OBody) (stream : Bool) :
    (∀ b : Int, body.thinking = some ⟨"enabled", some b⟩ → b ≠ 0 →
      (GeminiJs.openaiToGeminiCLI env model body stream).generationConfig.thinkingConfig
        = some ⟨b, true⟩) ∧
    (hasExplicitBudget body = false → ∀ e, body.reasoning_effort = some e → e ≠ "" →
      (GeminiJs.openaiToGeminiCLI env model body stream).generationConfig.thinkingConfig
        = some ⟨effortBudget e, true⟩) ∧
    (hasExplicitBudget body = false → effortFalsy body = true →
      (GeminiJs.openaiToGeminiCLI env model body stream).generationConfig.thinkingConfig
        = none) := by
  refine ⟨?_, ?_, ?_⟩
  · intro b hth hb
    rcases he : body.reasoning_effort with _ | e
    · rcases ht : (GeminiJs.openaiToGeminiBase env model body stream).tools
        with _ | ⟨_ | ⟨g, gs⟩⟩ <;>
        simp [GeminiJs.openaiToGeminiCLI, he, hth, hb, ht]
    · by_cases hee : e = "" <;>
        rcases ht : (GeminiJs.openaiToGeminiBase env model body stream).tools
          with _ | ⟨_ | ⟨g, gs⟩⟩ <;>
        simp [GeminiJs.openaiToGeminiCLI, he, hee, hth, hb, ht]
  · intro hx e he hee
    have hcfg : ∀ th : Option OThinking, body.thinking = th →
        (GeminiJs.openaiToGeminiCLI env model body stream).generationConfig.thinkingConfig
          = some ⟨effortBudget e, true⟩ := by
      rintro (_ | ⟨tt, bt⟩) hth
      · rcases ht : (GeminiJs.openaiToGeminiBase env model body stream).tools
          with _ | ⟨_ | ⟨g, gs⟩⟩ <;>
          simp [GeminiJs.openaiToGeminiCLI, he, hee, hth, ht, effortBudget]
      · rw [hasExplicitBudget, hth] at hx
        by_cases htt : tt = "enabled"
        · rcases bt with _ | b
          · rcases ht : (GeminiJs.openaiToGeminiBase env model body stream).tools
              with _ | ⟨_ | ⟨g, gs⟩⟩ <;>
              simp [GeminiJs.openaiToGeminiCLI, he, hee, hth, htt, ht, effortBudget]
          · have hb : b = 0 := by
              simp [htt] at hx
              exact hx
            rcases ht : (GeminiJs.openaiToGeminiBase env model body stream).tools
              with _ | ⟨_ | ⟨g, gs⟩⟩ <;>
              simp [GeminiJs.openaiToGeminiCLI, he, hee, hth, htt, hb, ht, effortBudget]
        · rcases ht : (GeminiJs.openaiToGeminiBase env model body stream).tools
            with _ | ⟨_ | ⟨g, gs⟩⟩ <;>
            simp [GeminiJs.openaiToGeminiCLI, he, hee, hth, htt, ht, effortBudget]
    exact hcfg body.thinking rfl
  · intro hx hf
    have hbase : (GeminiJs.openaiToGeminiBase env model body
        stream).generationConfig.thinkingConfig = none := rfl
    have heff : body.reasoning_effort = none ∨ body.reasoning_effort = some "" := by
      rw [effortFalsy] at hf
      rcases he : body.reasoning_effort with _ | e
      · exact Or.inl rfl
      · rw [he] at hf
        simp at hf
        exact Or.inr (by rw [hf])
    have hcfg : ∀ th : Option OThinking, body.thinking = th →
        (GeminiJs.openaiToGeminiCLI env model body stream).generationConfig.thinkingConfig
          = none := by
      rintro (_ | ⟨tt, bt⟩) hth
      · rcases heff with he | he <;>
          rcases ht : (GeminiJs.openaiToGeminiBase env model body stream).tools
            with _ | ⟨_ | ⟨g, gs⟩⟩ <;>
          simp [GeminiJs.openaiToGeminiCLI, he, hth, ht, hbase]
      · rw [hasExplicitBudget, hth] at hx
        by_cases htt : tt = "enabled"
        · rcases bt with _ | b
          · rcases heff with he | he <;>
              rcases ht : (GeminiJs.openaiToGeminiBase env model body stream).tools
                with _ | ⟨_ | ⟨g, gs⟩⟩ <;>
              simp [GeminiJs.openaiToGeminiCLI, he, hth, htt, ht, hbase]
          · have hb : b = 0 := by
              simp [htt] at hx
              exact hx
            rcases heff with he | he <;>
              rcases ht : (GeminiJs.openaiToGeminiBase env model body stream).tools
                with _ | ⟨_ | ⟨g, gs⟩⟩ <;>
              simp [GeminiJs.openaiToGeminiCLI, he, hth, htt, hb, ht, hbase]
        · rcases heff with he | he <;>
            rcases ht : (GeminiJs.openaiToGeminiBase env model body stream).tools
              with _ | ⟨_ | ⟨g, gs⟩⟩ <;>
            simp [GeminiJs.openaiToGeminiCLI, he, hth, htt, ht, hbase]
    exact hcfg body.thinking rfl

/-- Witness for C6's amended theorem at three concrete requests: explicit
budget 5, effort `"high"`, and the empty request. -/
theorem c6_thinking_budget_witness :
    (GeminiJs.openaiToGeminiCLI {} "m" ({ thinking := some (OThinking.mk "enabled" (some 5)) } : OBody)
        true).generationConfig.thinkingConfig = some (ThinkCfg.mk 5 true) ∧
    (GeminiJs.openaiToGeminiCLI {} "m" ({ reasoning_effort := some "high" } : OBody)
        true).generationConfig.thinkingConfig = some (ThinkCfg.mk (effortBudget "high") true) ∧
    (GeminiJs.openaiToGeminiCLI {} "m" ({} : OBody)
        true).generationConfig.thinkingConfig = none :=
  have h1 := (c6_thinking_budget {} "m" { thinking := some (OThinking.mk "enabled" (some 5)) } true).1
    5 rfl (by decide)
  have h2 := (c6_thinking_budget {} "m" { reasoning_effort := some "high" } true).2.1
    rfl "high" rfl (by decide)
  have h3 := (c6_thinking_budget {} "m" ({} : OBody) true).2.2 rfl rfl
  ⟨h1, h2, h3⟩


/-- The Gemini-CLI conversion changes only `generationConfig` and `tools`:
`contents` and `systemInstruction` are those of the base conversion. -/
theorem cli_preserves_contents_sysinstr (env : Env) (model : String) (body : OBody)
    (stream : Bool) :
    (GeminiJs.openaiToGeminiCLI env model body stream).contents =
      (GeminiJs.openaiToGeminiBase env model body stream).contents ∧
    (GeminiJs.openaiToGeminiCLI env model body stream).systemInstruction =
      (GeminiJs.openaiToGeminiBase env model body stream).systemInstruction := by
  constructor <;>
  · unfold GeminiJs.openaiToGeminiCLI
    dsimp only
    repeat' split
    all_goals rfl

/-- C8 counterexample: the registered converter of `to-openai/openai.js`
maps a lone system message to `systemInstruction` (with empty `contents`)
instead of emitting it as a user content entry. -/
theorem c8_counterexample :
    (ToOpenAIJs.openaiToGemini {} "m"
        ({ messages := some [{ role := "system", content := .str "x" }] } : OBody)
        true).systemInstruction = some ⟨none, [{ text := some "x" }]⟩ ∧
    (ToOpenAIJs.openaiToGemini {} "m"
        ({ messages := some [{ role := "system", content := .str "x" }] } : OBody)
        true).contents = [] ∧
    ([] : List GContent) ≠ [⟨"user", [{ text := some "x" }]⟩] :=
  ⟨rfl, rfl, by simp⟩

/-- C8 amended: for the Gemini-family converters of the Gemini translator
module (base, CLI and the Antigravity envelope's nested request), a system
message becomes `systemInstruction` when it is not the only message (the last
system message winning), and a lone system message becomes a user content
entry instead; system messages emit no `contents` entry when other messages
are present.  The separate converter in `to-openai/openai.js` does not share
the lone-message exception (see the counterexample). -/
theorem c8_system_instruction (env : Env) (model : String) (stream : Bool)
    (cred : Option String) :
    (∀ (body : OBody) (m : OMsg), body.messages = some [m] → m.role = "system" →
      (GeminiJs.openaiToGeminiBase env model body stream).systemInstruction = none ∧
      (GeminiJs.openaiToGeminiBase env model body stream).contents =
        (match GeminiJs.convertOpenAIContentToParts m.content with
         | [] => []
         | ps => [⟨"user", ps⟩]) ∧
      (GeminiJs.openaiToGeminiCLI env model body stream).systemInstruction = none ∧
      (GeminiJs.openaiToGeminiCLI env model body stream).contents =
        (match GeminiJs.convertOpenAIContentToParts m.content with
         | [] => []
         | ps => [⟨"user", ps⟩]) ∧
      (GeminiJs.openaiToAntigravity env model body stream cred).request.systemInstruction = none ∧
      (GeminiJs.openaiToAntigravity env model body stream cred).request.contents =
        (match GeminiJs.convertOpenAIContentToParts m.content with
         | [] => []
         | ps => [⟨"user", ps⟩])) ∧
    (∀ (body : OBody) (msgs : List OMsg) (mlast : OMsg), body.messages = some msgs →
      msgs.length > 1 →
      (msgs.filter fun m => m.role = "system").getLast? = some mlast →
      (GeminiJs.openaiToGeminiBase env model body stream).systemInstruction =
        some ⟨some "user",
          [{ text := some (match mlast.content with | .str s => s | c => extractTextContent c) }]⟩ ∧
      (GeminiJs.openaiToGeminiCLI env model body stream).systemInstruction =
        some ⟨some "user",
          [{ text := some (match mlast.content with | .str s => s | c => extractTextContent c) }]⟩ ∧
      (GeminiJs.openaiToAntigravity env model body stream cred).request.systemInstruction =
        some ⟨some "user",
          [{ text := some (match mlast.content with | .str s => s | c => extractTextContent c) }]⟩) ∧
    (∀ (names : List (String × String)) (responses : List (String × OContent)) (n : Nat)
        (m : OMsg), m.role = "system" → n > 1 →
      GeminiJs.emitContents env names responses n m = []) := by
  have hanti : ∀ (body : OBody),
      (GeminiJs.openaiToAntigravity env model body stream cred).request.systemInstruction =
        (GeminiJs.openaiToGeminiCLI env model body stream).systemInstruction ∧
      (GeminiJs.openaiToAntigravity env model body stream cred).request.contents =
        (GeminiJs.openaiToGeminiCLI env model body stream).contents :=
    fun body => ⟨rfl, rfl⟩
  refine ⟨?_, ?_, ?_⟩
  · intro body m hb hrole
    have hbase1 : (GeminiJs.openaiToGeminiBase env model body stream).systemInstruction = none := by
      simp [GeminiJs.openaiToGeminiBase, hb]
    have hbase2 : (GeminiJs.openaiToGeminiBase env model body stream).contents =
        (match GeminiJs.convertOpenAIContentToParts m.content with
         | [] => []
         | ps => [⟨"user", ps⟩]) := by
      simp [GeminiJs.openaiToGeminiBase, hb, GeminiJs.emitContents, hrole]
    have hcli := cli_preserves_contents_sysinstr env model body stream
    exact ⟨hbase1, hbase2, hcli.2.trans hbase1, hcli.1.trans hbase2,
      (hanti body).1.trans (hcli.2.trans hbase1), (hanti body).2.trans (hcli.1.trans hbase2)⟩
  · intro body msgs mlast hb hlen hlast
    have hbase : (GeminiJs.openaiToGeminiBase env model body stream).systemInstruction =
        some ⟨some "user",
          [{ text := some (match mlast.content with | .str s => s | c => extractTextContent c) }]⟩ := by
      simp [GeminiJs.openaiToGeminiBase, hb, hlen, hlast]
    have hcli := cli_preserves_contents_sysinstr env model body stream
    exact ⟨hbase, hcli.2.trans hbase, (hanti body).1.trans (hcli.2.trans hbase)⟩
  · intro names responses n m hrole hn
    simp [GeminiJs.emitContents, hrole, hn, Nat.not_eq_zero_of_lt hn]

/-- Witness for C8's amended theorem: a lone system message `"x"`, and a
two-message request whose last system message is `"a"`. -/
theorem c8_system_instruction_witness :
    (GeminiJs.openaiToGeminiBase {} "m"
        ({ messages := some [{ role := "system", content := .str "x" }] } : OBody)
        true).systemInstruction = none ∧
    (GeminiJs.openaiToGeminiBase {} "m"
        ({ messages := some [{ role := "system", content := .str "x" }] } : OBody)
        true).contents = [⟨"user", [{ text := some "x" }]⟩] ∧
    (GeminiJs.openaiToGeminiBase {} "m"
        ({ messages := some [{ role := "system", content := .str "a" },
                             { role := "user", content := .str "b" }] } : OBody)
        true).systemInstruction = some ⟨some "user", [{ text := some "a" }]⟩ ∧
    GeminiJs.emitContents {} [] [] 2 { role := "system", content := .str "a" } = [] := by
  have h1 := (c8_system_instruction {} "m" true none).1
    { messages := some [{ role := "system", content := .str "x" }] }
    { role := "system", content := .str "x" } rfl rfl
  have h2 := (c8_system_instruction {} "m" true none).2.1
    { messages := some [{ role := "system", content := .str "a" },
                        { role := "user", content := .str "b" }] }
    [{ role := "system", content := .str "a" }, { role := "user", content := .str "b" }]
    { role := "system", content := .str "a" } rfl (by decide) rfl
  have h3 := (c8_system_instruction {} "m" true none).2.2 [] [] 2
    { role := "system", content := .str "a" } rfl (by decide)
  exact ⟨h1.1, h1.2.1, h2.1, h3⟩

/-- Looking up key `fid` in a list from which all `fid` entries were filtered
out yields nothing. -/
theorem find_key_filter_self {β : Type} (l : List (String × β)) (fid : String) :
    (l.filter fun e => e.1 ≠ fid).find? (fun e => e.1 = fid) = none := by
  rw [List.find?_eq_none]
  intro e he
  have := (List.mem_filter.mp he).2
  simp only [decide_not, Bool.not_eq_eq_eq_not, Bool.not_true, decide_eq_false_iff_not] at this
  simp [this]

/-- Filtering out the entries of a different key does not change a key
lookup. -/
theorem find_key_filter_ne {β : Type} (l : List (String × β)) (fid fid' : String)
    (h : fid ≠ fid') :
    (l.filter fun e => e.1 ≠ fid').find? (fun e => e.1 = fid) =
      l.find? (fun e => e.1 = fid) := by
  rw [List.find?_filter]
  congr 1
  funext e
  by_cases he : e.1 = fid
  · have hne : e.1 ≠ fid' := by rw [he]; exact h
    simp [he, hne, h]
  · simp [he]

/-- A cache step over a message that is not a tool message for `fid` leaves
the `fid` lookup unchanged. -/
theorem toolResponsesStep_find_preserve (acc : List (String × OContent)) (m : OMsg)
    (fid : String) (hpm : ¬ (m.role = "tool" ∧ m.tool_call_id = some fid)) :
    (GeminiJs.toolResponsesStep acc m).find? (fun e => e.1 = fid) =
      acc.find? (fun e => e.1 = fid) := by
  unfold GeminiJs.toolResponsesStep
  by_cases hrole : m.role = "tool"
  · rcases hcid : m.tool_call_id with _ | fid'
    · simp [hrole, hcid]
    · have hne : fid' ≠ fid := by
        rintro rfl
        exact hpm ⟨hrole, hcid⟩
      by_cases hf' : fid' = ""
      · simp [hrole, hcid, hf']
      · simp only [hrole, hcid, if_true, hf', ite_not, if_pos]
        rw [if_neg not_false, List.find?_append, find_key_filter_ne acc fid fid' (Ne.symm hne)]
        simp [List.find?_cons, hne]
  · simp [hrole]

/-- Folding the cache construction over `msgs` from any accumulator: the
`fid` lookup is the content of the last matching tool message of `msgs`,
falling back to the accumulator's entry. -/
theorem buildToolResponses_find_aux (fid : String) (hfid : fid ≠ "") :
    ∀ (msgs : List OMsg) (acc : List (String × OContent)),
      ((msgs.foldl GeminiJs.toolResponsesStep acc).find? (fun e => e.1 = fid)).map (·.2) =
        (match (msgs.filter fun m => m.role = "tool" ∧ m.tool_call_id = some fid).getLast? with
         | some m => some m.content
         | none => (acc.find? (fun e => e.1 = fid)).map (·.2)) := by
  intro msgs
  induction msgs with
  | nil => intro acc; rfl
  | cons m t ih =>
    intro acc
    rw [List.foldl_cons, ih]
    by_cases hpm : m.role = "tool" ∧ m.tool_call_id = some fid
    · have hfilter : ((m :: t).filter fun m => m.role = "tool" ∧ m.tool_call_id = some fid) =
          m :: (t.filter fun m => m.role = "tool" ∧ m.tool_call_id = some fid) := by
        simp [List.filter_cons, hpm]
      rw [hfilter, List.getLast?_cons]
      rcases hlast : (t.filter fun m => m.role = "tool" ∧ m.tool_call_id = some fid).getLast?
        with _ | m₂
      · rw [hlast]
        have hstep : GeminiJs.toolResponsesStep acc m =
            acc.filter (fun e => e.1 ≠ fid) ++ [(fid, m.content)] := by
          unfold GeminiJs.toolResponsesStep
          simp [hpm.1, hpm.2, hfid]
        rw [hstep, List.find?_append, find_key_filter_self]
        simp [List.find?_cons]
      · rw [hlast]
        rfl
    · have hfilter : ((m :: t).filter fun m => m.role = "tool" ∧ m.tool_call_id = some fid) =
          t.filter fun m => m.role = "tool" ∧ m.tool_call_id = some fid := by
        simp [List.filter_cons, hpm]
      rw [hfilter]
      rcases hlast : (t.filter fun m => m.role = "tool" ∧ m.tool_call_id = some fid).getLast?
        with _ | m₂
      · rw [hlast, toolResponsesStep_find_preserve acc m fid hpm]
      · rw [hlast]

/-- The cache lookup equals the last matching tool message's content. -/
theorem buildToolResponses_find (msgs : List OMsg) (fid : String) (hfid : fid ≠ "") :
    ((GeminiJs.buildToolResponses msgs).find? (fun e => e.1 = fid)).map (·.2) =
      ((msgs.filter fun m => m.role = "tool" ∧ m.tool_call_id = some fid).getLast?).map
        (·.content) := by
  rw [GeminiJs.buildToolResponses, buildToolResponses_find_aux fid hfid msgs []]
  rcases h : (msgs.filter fun m => m.role = "tool" ∧ m.tool_call_id = some fid).getLast?
    with _ | m <;> rw [h] <;> rfl

/-- The `functionResponse` part built for `fid` is exactly the spec-side
description: id, heuristic name, and the always-once-more-wrapped response
value of the last matching tool message (default `"{}"`). -/
theorem mkFunctionResponsePart_spec (env : Env) (msgs : List OMsg)
    (names : List (String × String)) (fid : String) (hfid : fid ≠ "") :
    GeminiJs.mkFunctionResponsePart env (GeminiJs.buildToolResponses msgs) names fid =
      { functionResponse := some ⟨some fid, some (GeminiJs.functionResponseName names fid),
          specFunctionResponseValue env (specToolResponseRaw msgs fid)⟩ } := by
  unfold GeminiJs.mkFunctionResponsePart specFunctionResponseValue specToolResponseRaw
  rw [buildToolResponses_find msgs fid hfid]
  rcases h : (msgs.filter fun m => m.role = "tool" ∧ m.tool_call_id = some fid).getLast?
    with _ | m <;> rw [h] <;> rfl

/-- C7 counterexample: with tool content that parses to the object `{x: 1}`,
the emitted `functionResponse.response` is the wrapped `{result: {x: 1}}`,
not the object passed through unwrapped. -/
theorem c7_counterexample :
    (GeminiJs.openaiToGeminiBase
        ({ parse := fun s => if s = "{}" then some (.obj []) else none } : Env) "m"
        ({ messages := some [
            { role := "assistant", content := OContent.undef,
              tool_calls := some [⟨"function", "call1", some ⟨"f", some "{}"⟩⟩] },
            { role := "tool", content := .jval (.obj [("x", .num 1)]),
              tool_call_id := some "call1" }] } : OBody) true).contents =
      [⟨"model", [{ thoughtSignature := some "",
                    functionCall := some ⟨some "call1", "f", .obj []⟩ }]⟩,
       ⟨"user", [{ functionResponse := some ⟨some "call1", some "f",
                    .obj [("result", .obj [("x", .num 1)])]⟩ }]⟩] ∧
    JValue.obj [("result", .obj [("x", .num 1)])] ≠ JValue.obj [("x", .num 1)] :=
  ⟨rfl, by simp⟩

/-- An assistant message whose tool calls are all function-typed and
non-empty emits a `model` entry followed by a `user` entry holding one
`functionResponse` part per tool call, in order. -/
theorem emitContents_assistant (env : Env) (names : List (String × String))
    (responses : List (String × OContent)) (n : Nat) (a : OMsg) (tcs : List OToolCall)
    (ha : a.role = "assistant") (htc : a.tool_calls = some tcs)
    (hfn : ∀ tc ∈ tcs, tc.ttype = "function") (hne : tcs ≠ []) :
    ∃ P, GeminiJs.emitContents env names responses n a =
      [⟨"model", P⟩,
       ⟨"user", tcs.map fun tc =>
          GeminiJs.mkFunctionResponsePart env responses names tc.id⟩] := by
  have hfil : tcs.filter (fun tc => tc.ttype = "function") = tcs :=
    List.filter_eq_self.mpr (fun tc h => by simp [hfn tc h])
  refine ⟨(if a.content.truthy then
      (if (match a.content with | .str s => s | c => extractTextContent c) ≠ "" then
        [({ text := some (match a.content with | .str s => s | c => extractTextContent c) } : GPart)]
      else [])
    else []) ++ tcs.map (fun tc =>
      ({ thoughtSignature := some env.thinkingSignature
         functionCall := some ⟨some tc.id, (tc.function.map (·.name)).getD "",
          tryParseJSONValue env (.str (match tc.function.bind (·.arguments) with
            | some arg => if arg ≠ "" then arg else "{}"
            | none => "{}"))⟩ } : GPart)), ?_⟩
  unfold GeminiJs.emitContents
  rw [if_neg (by simp [ha]), if_neg (by simp [ha]), if_pos ha, htc]
  simp [hfil, List.map_map, Function.comp, hne]

/-- C7 amended: for every assistant message whose tool calls are function
typed, the Gemini conversion emits (right after that message's `model`
entry) a `user` entry with one `functionResponse` per tool call, each
carrying the call id, the mapped-or-heuristic name, and a response built by
looking the call id up among the tool-role messages (last one winning,
default `"{}"`), wrapping non-object parses as `{result: …}`, and always
nesting the outcome once more under `{result: …}`. -/
theorem c7_function_response (env : Env) (model : String) (stream : Bool) (body : OBody)
    (msgs pre post : List OMsg) (a : OMsg) (tcs : List OToolCall)
    (hb : body.messages = some msgs) (hm : msgs = pre ++ a :: post)
    (ha : a.role = "assistant") (htc : a.tool_calls = some tcs)
    (hfn : ∀ tc ∈ tcs, tc.ttype = "function") (hne : tcs ≠ [])
    (hid : ∀ tc ∈ tcs, tc.id ≠ "") :
    ∃ (U V : List GContent) (P : List GPart),
      (GeminiJs.openaiToGeminiBase env model body stream).contents =
        U ++ ⟨"model", P⟩ ::
          (⟨"user", tcs.map fun tc =>
            ({ functionResponse := some ⟨some tc.id,
                some (GeminiJs.functionResponseName (GeminiJs.buildTcID2Name msgs) tc.id),
                specFunctionResponseValue env (specToolResponseRaw msgs tc.id)⟩ } : GPart)⟩ :: V) := by
  subst hm
  have hcontents : (GeminiJs.openaiToGeminiBase env model body stream).contents =
      (pre ++ a :: post).flatMap (GeminiJs.emitContents env
        (GeminiJs.buildTcID2Name (pre ++ a :: post))
        (GeminiJs.buildToolResponses (pre ++ a :: post)) (pre ++ a :: post).length) := by
    simp [GeminiJs.openaiToGeminiBase, hb]
  obtain ⟨P, hemit⟩ := emitContents_assistant env (GeminiJs.buildTcID2Name (pre ++ a :: post))
    (GeminiJs.buildToolResponses (pre ++ a :: post)) (pre ++ a :: post).length a tcs ha htc hfn hne
  have hmapspec : (tcs.map fun tc =>
      GeminiJs.mkFunctionResponsePart env (GeminiJs.buildToolResponses (pre ++ a :: post))
        (GeminiJs.buildTcID2Name (pre ++ a :: post)) tc.id) =
      tcs.map fun tc =>
        ({ functionResponse := some ⟨some tc.id,
            some (GeminiJs.functionResponseName (GeminiJs.buildTcID2Name (pre ++ a :: post)) tc.id),
            specFunctionResponseValue env (specToolResponseRaw (pre ++ a :: post) tc.id)⟩ } : GPart) :=
    List.map_congr_left fun tc htcm =>
      mkFunctionResponsePart_spec env (pre ++ a :: post)
        (GeminiJs.buildTcID2Name (pre ++ a :: post)) tc.id (hid tc htcm)
  refine ⟨pre.flatMap (GeminiJs.emitContents env (GeminiJs.buildTcID2Name (pre ++ a :: post))
      (GeminiJs.buildToolResponses (pre ++ a :: post)) (pre ++ a :: post).length),
    post.flatMap (GeminiJs.emitContents env (GeminiJs.buildTcID2Name (pre ++ a :: post))
      (GeminiJs.buildToolResponses (pre ++ a :: post)) (pre ++ a :: post).length), P, ?_⟩
  rw [hcontents, List.flatMap_append, List.flatMap_cons, hemit, hmapspec]
  rfl

/-- Witness for C7's amended theorem at the counterexample's request. -/
theorem c7_function_response_witness :
    ∃ (U V : List GContent) (P : List GPart),
      (GeminiJs.openaiToGeminiBase
          ({ parse := fun s => if s = "{}" then some (.obj []) else none } : Env) "m"
          ({ messages := some [
              { role := "assistant", content := OContent.undef,
                tool_calls := some [⟨"function", "call1", some ⟨"f", some "{}"⟩⟩] },
              { role := "tool", content := .jval (.obj [("x", .num 1)]),
                tool_call_id := some "call1" }] } : OBody) true).contents =
        U ++ ⟨"model", P⟩ ::
          (⟨"user", ([⟨"function", "call1", some ⟨"f", some "{}"⟩⟩] : List OToolCall).map fun tc =>
            ({ functionResponse := some ⟨some tc.id,
                some (GeminiJs.functionResponseName
                  (GeminiJs.buildTcID2Name [
                    { role := "assistant", content := OContent.undef,
                      tool_calls := some [⟨"function", "call1", some ⟨"f", some "{}"⟩⟩] },
                    { role := "tool", content := .jval (.obj [("x", .num 1)]),
                      tool_call_id := some "call1" }]) tc.id),
                specFunctionResponseValue
                  ({ parse := fun s => if s = "{}" then some (.obj []) else none } : Env)
                  (specToolResponseRaw [
                    { role := "assistant", content := OContent.undef,
                      tool_calls := some [⟨"function", "call1", some ⟨"f", some "{}"⟩⟩] },
                    { role := "tool", content := .jval (.obj [("x", .num 1)]),
                      tool_call_id := some "call1" }] tc.id)⟩ } : GPart)⟩ :: V) :=
  c7_function_response
    ({ parse := fun s => if s = "{}" then some (.obj []) else none } : Env) "m" true
    ({ messages := some [
        { role := "assistant", content := OContent.undef,
          tool_calls := some [⟨"function", "call1", some ⟨"f", some "{}"⟩⟩] },
        { role := "tool", content := .jval (.obj [("x", .num 1)]),
          tool_call_id := some "call1" }] } : OBody)
    [{ role := "assistant", content := OContent.undef,
       tool_calls := some [⟨"function", "call1", some ⟨"f", some "{}"⟩⟩] },
     { role := "tool", content := .jval (.obj [("x", .num 1)]),
       tool_call_id := some "call1" }]
    []
    [{ role := "tool", content := .jval (.obj [("x", .num 1)]), tool_call_id := some "call1" }]
    { role := "assistant", content := OContent.undef,
      tool_calls := some [⟨"function", "call1", some ⟨"f", some "{}"⟩⟩] }
    [⟨"function", "call1", some ⟨"f", some "{}"⟩⟩]
    rfl rfl rfl rfl (by simp) (by simp) (by simp)

/-- Setting a key then reading it back gives the new value. -/
theorem alGet_alSet_self {α β : Type} [DecidableEq α] (l : List (α × β)) (k : α) (v : β) :
    alGet (alSet l k v) k = some v := by
  induction l with
  | nil => simp [alSet, alGet]
  | cons e t ih =>
    by_cases he : e.1 = k
    · simp [alSet, alGet, he]
    · simp only [alSet, he, if_neg]
      unfold alGet at ih ⊢
      simp [List.find?_cons, he, ih]

/-- Setting one key leaves the lookup of any other key unchanged. -/
theorem alGet_alSet_ne {α β : Type} [DecidableEq α] (l : List (α × β)) (k k' : α) (v : β)
    (h : k' ≠ k) : alGet (alSet l k v) k' = alGet l k' := by
  induction l with
  | nil =>
    have hkk : ¬ k = k' := fun hh => h hh.symm
    simp [alSet, alGet, hkk]
  | cons e t ih =>
    by_cases he : e.1 = k
    · subst he
      simp [alSet, alGet, List.find?_cons, Ne.symm h, h]
    · simp only [alSet, he, if_neg]
      unfold alGet at ih ⊢
      by_cases he' : e.1 = k'
      · simp [List.find?_cons, he']
      · simp [List.find?_cons, he', ih]

/-- Every entry of `alSet l k v` is the new pair or an entry of `l`. -/
theorem mem_alSet {α β : Type} [DecidableEq α] (l : List (α × β)) (k : α) (v : β) :
    ∀ e ∈ alSet l k v, e = (k, v) ∨ e ∈ l := by
  induction l with
  | nil =>
    intro e he
    simp [alSet] at he
    exact Or.inl he
  | cons e₀ t ih =>
    rcases e₀ with ⟨k0, v0⟩
    intro e he
    by_cases h0 : k0 = k
    · rw [alSet, if_pos h0] at he
      rcases List.mem_cons.mp he with he | he
      · exact Or.inl he
      · exact Or.inr (List.mem_cons_of_mem _ he)
    · rw [alSet, if_neg h0] at he
      rcases List.mem_cons.mp he with he | he
      · exact Or.inr (he ▸ List.mem_cons_self _ _)
      · rcases ih e he with h | h
        · exact Or.inl h
        · exact Or.inr (List.mem_cons_of_mem _ h)

/-- A successful lookup exhibits a member with that key. -/
theorem alGet_mem {α β : Type} [DecidableEq α] (l : List (α × β)) (k : α) (v : β)
    (h : alGet l k = some v) : (k, v) ∈ l := by
  unfold alGet at h
  rcases hfind : l.find? (fun e => e.1 = k) with _ | e
  · rw [hfind] at h; cases h
  · rw [hfind] at h
    simp at h
    have hm := List.mem_of_find?_eq_some hfind
    have hp := List.find?_some hfind
    simp only [decide_eq_true_eq] at hp
    have he : e = (k, v) := Prod.ext hp h
    rwa [he] at hm

/-- `inputFragsAt` splits over cons. -/
theorem inputFragsAt_cons (i : Nat) (e : ClaudeStreamJs.CEvent)
    (es : List ClaudeStreamJs.CEvent) :
    inputFragsAt i (e :: es) = inputFragsAt i [e] ++ inputFragsAt i es := by
  rcases e with _ | _ | ⟨j, d⟩ | _ | _ | _ | _
  · simp [inputFragsAt]
  · simp [inputFragsAt]
  · rcases d with _ | d
    · simp [inputFragsAt]
    · rcases d with _ | _ | f | _ <;> simp [inputFragsAt, String.append_assoc]
  · simp [inputFragsAt]
  · simp [inputFragsAt]
  · simp [inputFragsAt]
  · simp [inputFragsAt]

/-- `emittedArgsFor` splits over append. -/
theorem emittedArgsFor_append (k : Nat) (a b : List OChunk) :
    emittedArgsFor k (a ++ b) = emittedArgsFor k a ++ emittedArgsFor k b := by
  induction a with
  | nil => simp [emittedArgsFor]
  | cons c t ih => simp [emittedArgsFor, ih, String.append_assoc]

/-- The tracked conclusion of one translator step for the entry at provider
index `i`. -/
def claudeStepTracks (env : Env) (e : ClaudeStreamJs.CEvent) (st : ClaudeStreamJs.CState)
    (i : Nat) (tc : OTCDelta) : Prop :=
  claudeStateInv (ClaudeStreamJs.claudeToOpenAIResponse env (some e) st).2 ∧
  st.toolCallIndex ≤ (ClaudeStreamJs.claudeToOpenAIResponse env (some e) st).2.toolCallIndex ∧
  ∃ tc', alGet (ClaudeStreamJs.claudeToOpenAIResponse env (some e) st).2.toolCalls i
      = some tc' ∧
    tc'.index = tc.index ∧ tc'.id = tc.id ∧
    tc'.arguments.getD "" = tc.arguments.getD "" ++ inputFragsAt i [e] ∧
    emittedArgsFor tc.index
        ((ClaudeStreamJs.claudeToOpenAIResponse env (some e) st).1.getD []) =
      inputFragsAt i [e]

/-- A step that neither touches the tool-call map nor the counter, emits
nothing for the tracked index, and whose event carries no fragment at `i`,
tracks trivially. -/
theorem claude_step_track_by (env : Env) (e : ClaudeStreamJs.CEvent)
    (st : ClaudeStreamJs.CState) (i : Nat) (tc : OTCDelta)
    (hinv : claudeStateInv st) (hget : alGet st.toolCalls i = some tc)
    (hTc : (ClaudeStreamJs.claudeToOpenAIResponse env (some e) st).2.toolCalls = st.toolCalls)
    (hCnt : (ClaudeStreamJs.claudeToOpenAIResponse env (some e) st).2.toolCallIndex
      = st.toolCallIndex)
    (hout : emittedArgsFor tc.index
      ((ClaudeStreamJs.claudeToOpenAIResponse env (some e) st).1.getD []) = "")
    (hfrag : inputFragsAt i [e] = "") :
    claudeStepTracks env e st i tc := by
  unfold claudeStepTracks
  refine ⟨?_, ?_, tc, ?_, rfl, rfl, ?_, ?_⟩
  · unfold claudeStateInv at hinv ⊢
    rw [hTc, hCnt]
    exact hinv
  · rw [hCnt]
  · rw [hTc]
    exact hget
  · simp [hfrag]
  · rw [hout, hfrag]

/-- One step of the Claude-to-OpenAI translator over any event that is
neither a `message_start` nor a `tool_use` block start at provider index
`i`: the invariant is preserved, the counter does not decrease, the entry
recorded at `i` keeps its output index and id, its buffer grows by exactly
the event's fragment at `i`, and the chunks emitted for its output index
carry exactly that fragment. -/
theorem claude_step_track (env : Env) (e : ClaudeStreamJs.CEvent)
    (st : ClaudeStreamJs.CState) (i : Nat) (tc : OTCDelta)
    (hinv : claudeStateInv st) (hget : alGet st.toolCalls i = some tc)
    (hnm : isMessageStart e = false) (hns : isToolUseStartAt i e = false) :
    claudeStepTracks env e st i tc := by
  have hmem : (i, tc) ∈ st.toolCalls := alGet_mem _ _ _ hget
  have hlt : tc.index < st.toolCallIndex := hinv.1 (i, tc) hmem
  rcases e with ⟨id, model⟩ | ⟨j, b⟩ | ⟨j, d⟩ | j | sr | _ | _
  · simp [isMessageStart] at hnm
  · rcases b with _ | b
    · exact claude_step_track_by env _ st i tc hinv hget rfl rfl rfl rfl
    · rcases b with _ | _ | ⟨tid, tname⟩ | _
      · exact claude_step_track_by env _ st i tc hinv hget rfl rfl rfl rfl
      · exact claude_step_track_by env _ st i tc hinv hget rfl rfl
          (by simp [emittedArgsFor, chunkArgsFor, ClaudeStreamJs.claudeToOpenAIResponse,
            ClaudeStreamJs.createChunk]) rfl
      · have hji : j ≠ i := by simpa [isToolUseStartAt] using hns
        unfold claudeStepTracks
        have hstep : ClaudeStreamJs.claudeToOpenAIResponse env
            (some (.content_block_start j (some (.tool_use tid tname)))) st =
            (some [ClaudeStreamJs.createChunk env
                { st with toolCallIndex := st.toolCallIndex + 1
                          toolCalls := alSet st.toolCalls j
                            { index := st.toolCallIndex, id := some tid
                              ttype := some "function", fname := some tname
                              arguments := some "" } }
                { tool_calls := some
                    [{ index := st.toolCallIndex, id := some tid, ttype := some "function"
                       fname := some tname, arguments := some "" }] }],
             { st with toolCallIndex := st.toolCallIndex + 1
                       toolCalls := alSet st.toolCalls j
                         { index := st.toolCallIndex, id := some tid
                           ttype := some "function", fname := some tname
                           arguments := some "" } }) := rfl
        rw [hstep]
        refine ⟨?_, ?_, tc, ?_, rfl, rfl, ?_, ?_⟩
        · constructor
          · intro e he
            rcases mem_alSet _ _ _ e he with h | h
            · rw [h]
              exact Nat.lt_succ_self _
            · exact Nat.lt_succ_of_lt (hinv.1 e h)
          · intro e₁ h₁ e₂ h₂ hk
            rcases mem_alSet _ _ _ e₁ h₁ with h₁' | h₁' <;>
              rcases mem_alSet _ _ _ e₂ h₂ with h₂' | h₂'
            · rw [h₁', h₂'] at hk
              exact absurd rfl hk
            · rw [h₁']
              exact Nat.ne_of_gt (hinv.1 e₂ h₂')
            · rw [h₂']
              exact Nat.ne_of_lt (hinv.1 e₁ h₁')
            · exact hinv.2 e₁ h₁' e₂ h₂' hk
        · exact Nat.le_succ _
        · simpa [alGet_alSet_ne _ _ _ _ (Ne.symm hji)] using hget
        · simp [inputFragsAt]
        · simp [inputFragsAt, emittedArgsFor, ClaudeStreamJs.createChunk, chunkArgsFor,
            String.join, Nat.ne_of_gt hlt]
      · exact claude_step_track_by env _ st i tc hinv hget rfl rfl rfl rfl
  · rcases d with _ | d
    · exact claude_step_track_by env _ st i tc hinv hget rfl rfl rfl rfl
    · rcases d with t | t | f | _
      · by_cases ht : t = "" <;>
          exact claude_step_track_by env _ st i tc hinv hget
            (by simp [ClaudeStreamJs.claudeToOpenAIResponse, ht])
            (by simp [ClaudeStreamJs.claudeToOpenAIResponse, ht])
            (by simp [ClaudeStreamJs.claudeToOpenAIResponse, ht, emittedArgsFor, chunkArgsFor,
              ClaudeStreamJs.createChunk]) rfl
      · by_cases ht : t = "" <;>
          exact claude_step_track_by env _ st i tc hinv hget
            (by simp [ClaudeStreamJs.claudeToOpenAIResponse, ht])
            (by simp [ClaudeStreamJs.claudeToOpenAIResponse, ht])
            (by simp [ClaudeStreamJs.claudeToOpenAIResponse, ht, emittedArgsFor, chunkArgsFor,
              ClaudeStreamJs.createChunk]) rfl
      · by_cases hf : f = ""
        · subst hf
          exact claude_step_track_by env _ st i tc hinv hget
            (by simp [ClaudeStreamJs.claudeToOpenAIResponse])
            (by simp [ClaudeStreamJs.claudeToOpenAIResponse])
            (by simp [ClaudeStreamJs.claudeToOpenAIResponse, emittedArgsFor])
            (by simp [inputFragsAt])
        · by_cases hji : j = i
          · subst hji
            unfold claudeStepTracks
            have hstep : ClaudeStreamJs.claudeToOpenAIResponse env
                (some (.content_block_delta j (some (.input_json_delta f)))) st =
                (some [ClaudeStreamJs.createChunk env
                    { st with toolCalls := alSet st.toolCalls j { tc with arguments := some (tc.arguments.getD "" ++ f) } }
                    { tool_calls := some
                        [{ index := tc.index, id := tc.id, arguments := some f }] }],
                 { st with toolCalls := alSet st.toolCalls j { tc with arguments := some (tc.arguments.getD "" ++ f) } }) := by
              simp [ClaudeStreamJs.claudeToOpenAIResponse, hf, hget]
            rw [hstep]
            refine ⟨?_, ?_, { tc with arguments := some (tc.arguments.getD "" ++ f) }, ?_,
              rfl, rfl, ?_, ?_⟩
            · constructor
              · intro e he
                rcases mem_alSet _ _ _ e he with h | h
                · rw [h]
                  exact hlt
                · exact hinv.1 e h
              · intro e₁ h₁ e₂ h₂ hk
                rcases mem_alSet _ _ _ e₁ h₁ with h₁' | h₁' <;>
                  rcases mem_alSet _ _ _ e₂ h₂ with h₂' | h₂'
                · rw [h₁', h₂'] at hk
                  exact absurd rfl hk
                · rw [h₁'] at hk ⊢
                  exact hinv.2 (j, tc) hmem e₂ h₂' hk
                · rw [h₂'] at hk ⊢
                  exact hinv.2 e₁ h₁' (j, tc) hmem hk
                · exact hinv.2 e₁ h₁' e₂ h₂' hk
            · exact le_refl _
            · simp [alGet_alSet_self]
            · simp [inputFragsAt]
            · simp [inputFragsAt, emittedArgsFor, ClaudeStreamJs.createChunk, chunkArgsFor,
                String.join]
          · rcases hgetj : alGet st.toolCalls j with _ | tcj
            · exact claude_step_track_by env _ st i tc hinv hget
                (by simp [ClaudeStreamJs.claudeToOpenAIResponse, hf, hgetj])
                (by simp [ClaudeStreamJs.claudeToOpenAIResponse, hf, hgetj])
                (by simp [ClaudeStreamJs.claudeToOpenAIResponse, hf, hgetj, emittedArgsFor])
                (by simp [inputFragsAt, hji])
            · have hmemj : (j, tcj) ∈ st.toolCalls := alGet_mem _ _ _ hgetj
              have hne : tcj.index ≠ tc.index := by
                have := hinv.2 (j, tcj) hmemj (i, tc) hmem
                simpa [hji] using this
              unfold claudeStepTracks
              have hstep : ClaudeStreamJs.claudeToOpenAIResponse env
                  (some (.content_block_delta j (some (.input_json_delta f)))) st =
                  (some [ClaudeStreamJs.createChunk env
                      { st with toolCalls := alSet st.toolCalls j { tcj with arguments := some (tcj.arguments.getD "" ++ f) } }
                      { tool_calls := some
                          [{ index := tcj.index, id := tcj.id, arguments := some f }] }],
                   { st with toolCalls := alSet st.toolCalls j { tcj with arguments := some (tcj.arguments.getD "" ++ f) } }) := by
                simp [ClaudeStreamJs.claudeToOpenAIResponse, hf, hgetj]
              rw [hstep]
              refine ⟨?_, ?_, tc, ?_, rfl, rfl, ?_, ?_⟩
              · constructor
                · intro e he
                  rcases mem_alSet _ _ _ e he with h | h
                  · rw [h]
                    exact hinv.1 (j, tcj) hmemj
                  · exact hinv.1 e h
                · intro e₁ h₁ e₂ h₂ hk
                  rcases mem_alSet _ _ _ e₁ h₁ with h₁' | h₁' <;>
                    rcases mem_alSet _ _ _ e₂ h₂ with h₂' | h₂'
                  · rw [h₁', h₂'] at hk
                    exact absurd rfl hk
                  · rw [h₁'] at hk ⊢
                    exact hinv.2 (j, tcj) hmemj e₂ h₂' hk
                  · rw [h₂'] at hk ⊢
                    exact hinv.2 e₁ h₁' (j, tcj) hmemj hk
                  · exact hinv.2 e₁ h₁' e₂ h₂' hk
              · exact le_refl _
              · simpa [alGet_alSet_ne _ _ _ _ (Ne.symm hji)] using hget
              · simp [inputFragsAt, hji]
              · simp [inputFragsAt, emittedArgsFor, ClaudeStreamJs.createChunk, chunkArgsFor,
                  String.join, hji, hne]
      · exact claude_step_track_by env _ st i tc hinv hget rfl rfl rfl rfl
  · by_cases hc : st.inThinkingBlock ∧ st.currentBlockIndex = some j <;>
      exact claude_step_track_by env _ st i tc hinv hget
        (by simp [ClaudeStreamJs.claudeToOpenAIResponse, hc])
        (by simp [ClaudeStreamJs.claudeToOpenAIResponse, hc])
        (by simp [ClaudeStreamJs.claudeToOpenAIResponse, hc, emittedArgsFor, chunkArgsFor,
          ClaudeStreamJs.createChunk]) rfl
  · rcases sr with _ | s
    · exact claude_step_track_by env _ st i tc hinv hget
        (by simp [ClaudeStreamJs.claudeToOpenAIResponse, firstTruthy])
        (by simp [ClaudeStreamJs.claudeToOpenAIResponse, firstTruthy])
        (by simp [ClaudeStreamJs.claudeToOpenAIResponse, firstTruthy, emittedArgsFor]) rfl
    · by_cases hs : s = "" <;>
        exact claude_step_track_by env _ st i tc hinv hget
          (by simp [ClaudeStreamJs.claudeToOpenAIResponse, firstTruthy, hs])
          (by simp [ClaudeStreamJs.claudeToOpenAIResponse, firstTruthy, hs])
          (by simp [ClaudeStreamJs.claudeToOpenAIResponse, firstTruthy, hs, emittedArgsFor,
            chunkArgsFor, ClaudeStreamJs.createChunk]) rfl
  · by_cases hd : st.finishReasonSent <;>
      exact claude_step_track_by env _ st i tc hinv hget
        (by simp [ClaudeStreamJs.claudeToOpenAIResponse, hd])
        (by simp [ClaudeStreamJs.claudeToOpenAIResponse, hd])
        (by simp [ClaudeStreamJs.claudeToOpenAIResponse, hd, emittedArgsFor, chunkArgsFor,
          ClaudeStreamJs.createChunk]) rfl
  · exact claude_step_track_by env _ st i tc hinv hget rfl rfl rfl rfl

/-- Recording a fresh entry carrying the current counter value and bumping
the counter preserves the state invariant. -/
theorem claudeStateInv_alSet_bump (st : ClaudeStreamJs.CState) (j : Nat) (tc : OTCDelta)
    (hinv : claudeStateInv st) (hidx : tc.index = st.toolCallIndex) :
    claudeStateInv { st with toolCallIndex := st.toolCallIndex + 1
                             toolCalls := alSet st.toolCalls j tc } := by
  constructor
  · intro e he
    rcases mem_alSet _ _ _ e he with h | h
    · rw [h]
      simp [hidx]
    · exact Nat.lt_succ_of_lt (hinv.1 e h)
  · intro e₁ h₁ e₂ h₂ hk
    rcases mem_alSet _ _ _ e₁ h₁ with h₁' | h₁' <;>
      rcases mem_alSet _ _ _ e₂ h₂ with h₂' | h₂'
    · rw [h₁', h₂'] at hk
      exact absurd rfl hk
    · rw [h₁']
      simpa [hidx] using Nat.ne_of_gt (hinv.1 e₂ h₂')
    · rw [h₂']
      simpa [hidx] using Nat.ne_of_lt (hinv.1 e₁ h₁')
    · exact hinv.2 e₁ h₁' e₂ h₂' hk

/-- Replacing a recorded entry by one with the same output index preserves
the state invariant. -/
theorem claudeStateInv_alSet_keep (st : ClaudeStreamJs.CState) (j : Nat) (tcj tcj' : OTCDelta)
    (hinv : claudeStateInv st) (hmemj : (j, tcj) ∈ st.toolCalls)
    (hidx : tcj'.index = tcj.index) :
    claudeStateInv { st with toolCalls := alSet st.toolCalls j tcj' } := by
  constructor
  · intro e he
    rcases mem_alSet _ _ _ e he with h | h
    · rw [h]
      simpa [hidx] using hinv.1 (j, tcj) hmemj
    · exact hinv.1 e h
  · intro e₁ h₁ e₂ h₂ hk
    rcases mem_alSet _ _ _ e₁ h₁ with h₁' | h₁' <;>
      rcases mem_alSet _ _ _ e₂ h₂ with h₂' | h₂'
    · rw [h₁', h₂'] at hk
      exact absurd rfl hk
    · rw [h₁'] at hk ⊢
      simpa [hidx] using hinv.2 (j, tcj) hmemj e₂ h₂' hk
    · rw [h₂'] at hk ⊢
      simpa [hidx] using hinv.2 e₁ h₁' (j, tcj) hmemj hk
    · exact hinv.2 e₁ h₁' e₂ h₂' hk

/-- The bound conclusion of one translator step: invariant preserved,
counter monotone, and nothing emitted for output indices at or above the new
counter. -/
def claudeStepBounds (env : Env) (e : ClaudeStreamJs.CEvent)
    (st : ClaudeStreamJs.CState) : Prop :=
  claudeStateInv (ClaudeStreamJs.claudeToOpenAIResponse env (some e) st).2 ∧
  st.toolCallIndex ≤ (ClaudeStreamJs.claudeToOpenAIResponse env (some e) st).2.toolCallIndex ∧
  ∀ k, (ClaudeStreamJs.claudeToOpenAIResponse env (some e) st).2.toolCallIndex ≤ k →
    emittedArgsFor k ((ClaudeStreamJs.claudeToOpenAIResponse env (some e) st).1.getD []) = ""

/-- A step keeping the map and counter, emitting nothing for any tool-call
index, is bounded trivially. -/
theorem claude_step_bound_by (env : Env) (e : ClaudeStreamJs.CEvent)
    (st : ClaudeStreamJs.CState) (hinv : claudeStateInv st)
    (hTc : (ClaudeStreamJs.claudeToOpenAIResponse env (some e) st).2.toolCalls = st.toolCalls)
    (hCnt : (ClaudeStreamJs.claudeToOpenAIResponse env (some e) st).2.toolCallIndex
      = st.toolCallIndex)
    (hout : ∀ k, emittedArgsFor k
      ((ClaudeStreamJs.claudeToOpenAIResponse env (some e) st).1.getD []) = "") :
    claudeStepBounds env e st := by
  unfold claudeStepBounds
  refine ⟨?_, ?_, fun k _ => hout k⟩
  · unfold claudeStateInv at hinv ⊢
    rw [hTc, hCnt]
    exact hinv
  · rw [hCnt]

/-- One non-`message_start` step of the Claude-to-OpenAI translator is
bounded: the invariant is preserved, the counter never decreases, and no
chunk is emitted for an output index at or above the new counter. -/
theorem claude_step_bound (env : Env) (e : ClaudeStreamJs.CEvent)
    (st : ClaudeStreamJs.CState) (hinv : claudeStateInv st)
    (hnm : isMessageStart e = false) :
    claudeStepBounds env e st := by
  rcases e with ⟨id, model⟩ | ⟨j, b⟩ | ⟨j, d⟩ | j | sr | _ | _
  · simp [isMessageStart] at hnm
  · rcases b with _ | b
    · exact claude_step_bound_by env _ st hinv rfl rfl (fun k => rfl)
    · rcases b with _ | _ | ⟨tid, tname⟩ | _
      · exact claude_step_bound_by env _ st hinv rfl rfl (fun k => rfl)
      · exact claude_step_bound_by env _ st hinv rfl rfl (fun k => by
          simp [emittedArgsFor, chunkArgsFor, ClaudeStreamJs.claudeToOpenAIResponse,
            ClaudeStreamJs.createChunk])
      · unfold claudeStepBounds
        refine ⟨?_, Nat.le_succ _, ?_⟩
        · exact claudeStateInv_alSet_bump st j _ hinv rfl
        · intro k hk
          have hlt : st.toolCallIndex < k := Nat.lt_of_succ_le hk
          simp [emittedArgsFor, chunkArgsFor, ClaudeStreamJs.claudeToOpenAIResponse,
            ClaudeStreamJs.createChunk, String.join, Nat.ne_of_lt hlt]
      · exact claude_step_bound_by env _ st hinv rfl rfl (fun k => rfl)
  · rcases d with _ | d
    · exact claude_step_bound_by env _ st hinv rfl rfl (fun k => rfl)
    · rcases d with t | t | f | _
      · by_cases ht : t = "" <;>
          exact claude_step_bound_by env _ st hinv
            (by simp [ClaudeStreamJs.claudeToOpenAIResponse, ht])
            (by simp [ClaudeStreamJs.claudeToOpenAIResponse, ht])
            (fun k => by simp [ClaudeStreamJs.claudeToOpenAIResponse, ht, emittedArgsFor,
              chunkArgsFor, ClaudeStreamJs.createChunk])
      · by_cases ht : t = "" <;>
          exact claude_step_bound_by env _ st hinv
            (by simp [ClaudeStreamJs.claudeToOpenAIResponse, ht])
            (by simp [ClaudeStreamJs.claudeToOpenAIResponse, ht])
            (fun k => by simp [ClaudeStreamJs.claudeToOpenAIResponse, ht, emittedArgsFor,
              chunkArgsFor, ClaudeStreamJs.createChunk])
      · by_cases hf : f = ""
        · subst hf
          exact claude_step_bound_by env _ st hinv
            (by simp [ClaudeStreamJs.claudeToOpenAIResponse])
            (by simp [ClaudeStreamJs.claudeToOpenAIResponse])
            (fun k => by simp [ClaudeStreamJs.claudeToOpenAIResponse, emittedArgsFor])
        · rcases hgetj : alGet st.toolCalls j with _ | tcj
          · exact claude_step_bound_by env _ st hinv
              (by simp [ClaudeStreamJs.claudeToOpenAIResponse, hf, hgetj])
              (by simp [ClaudeStreamJs.claudeToOpenAIResponse, hf, hgetj])
              (fun k => by simp [ClaudeStreamJs.claudeToOpenAIResponse, hf, hgetj,
                emittedArgsFor])
          · have hmemj : (j, tcj) ∈ st.toolCalls := alGet_mem _ _ _ hgetj
            have hstep : ClaudeStreamJs.claudeToOpenAIResponse env
                (some (.content_block_delta j (some (.input_json_delta f)))) st =
                (some [ClaudeStreamJs.createChunk env
                    { st with toolCalls := alSet st.toolCalls j { tcj with arguments := some (tcj.arguments.getD "" ++ f) } }
                    { tool_calls := some
                        [{ index := tcj.index, id := tcj.id, arguments := some f }] }],
                 { st with toolCalls := alSet st.toolCalls j { tcj with arguments := some (tcj.arguments.getD "" ++ f) } }) := by
              simp [ClaudeStreamJs.claudeToOpenAIResponse, hf, hgetj]
            unfold claudeStepBounds
            rw [hstep]
            refine ⟨claudeStateInv_alSet_keep st j tcj _ hinv hmemj rfl, le_refl _, ?_⟩
            intro k hk
            have hlt : tcj.index < k := Nat.lt_of_lt_of_le (hinv.1 (j, tcj) hmemj) hk
            simp [emittedArgsFor, chunkArgsFor, ClaudeStreamJs.createChunk, String.join,
              Nat.ne_of_lt hlt]
      · exact claude_step_bound_by env _ st hinv rfl rfl (fun k => rfl)
  · by_cases hc : st.inThinkingBlock ∧ st.currentBlockIndex = some j <;>
      exact claude_step_bound_by env _ st hinv
        (by simp [ClaudeStreamJs.claudeToOpenAIResponse, hc])
        (by simp [ClaudeStreamJs.claudeToOpenAIResponse, hc])
        (fun k => by simp [ClaudeStreamJs.claudeToOpenAIResponse, hc, emittedArgsFor,
          chunkArgsFor, ClaudeStreamJs.createChunk])
  · rcases sr with _ | s
    · exact claude_step_bound_by env _ st hinv
        (by simp [ClaudeStreamJs.claudeToOpenAIResponse, firstTruthy])
        (by simp [ClaudeStreamJs.claudeToOpenAIResponse, firstTruthy])
        (fun k => by simp [ClaudeStreamJs.claudeToOpenAIResponse, firstTruthy, emittedArgsFor])
    · by_cases hs : s = "" <;>
        exact claude_step_bound_by env _ st hinv
          (by simp [ClaudeStreamJs.claudeToOpenAIResponse, firstTruthy, hs])
          (by simp [ClaudeStreamJs.claudeToOpenAIResponse, firstTruthy, hs])
          (fun k => by simp [ClaudeStreamJs.claudeToOpenAIResponse, firstTruthy, hs,
            emittedArgsFor, chunkArgsFor, ClaudeStreamJs.createChunk])
  · by_cases hd : st.finishReasonSent <;>
      exact claude_step_bound_by env _ st hinv
        (by simp [ClaudeStreamJs.claudeToOpenAIResponse, hd])
        (by simp [ClaudeStreamJs.claudeToOpenAIResponse, hd])
        (fun k => by simp [ClaudeStreamJs.claudeToOpenAIResponse, hd, emittedArgsFor,
          chunkArgsFor, ClaudeStreamJs.createChunk])
  · exact claude_step_bound_by env _ st hinv rfl rfl (fun k => rfl)

/-- Folding the translator over a `message_start`-free event sequence is
bounded: the invariant is preserved, the counter never decreases, and no
chunk beyond the accumulator is emitted for an output index at or above the
final counter. -/
theorem claude_fold_bound (env : Env) (es : List ClaudeStreamJs.CEvent) :
    ∀ (st : ClaudeStreamJs.CState) (acc : List OChunk), claudeStateInv st →
      (∀ e ∈ es, isMessageStart e = false) →
      claudeStateInv (claudeFold env es acc st).2 ∧
      st.toolCallIndex ≤ (claudeFold env es acc st).2.toolCallIndex ∧
      ∀ k, (claudeFold env es acc st).2.toolCallIndex ≤ k →
        emittedArgsFor k (claudeFold env es acc st).1 = emittedArgsFor k acc := by
  induction es with
  | nil =>
    intro st acc hinv _
    exact ⟨hinv, le_refl _, fun k _ => rfl⟩
  | cons e rest ih =>
    intro st acc hinv hnm
    have hstep := claude_step_bound env e st hinv (hnm e (List.mem_cons_self _ _))
    obtain ⟨hinv₁, hmono₁, hbound₁⟩ := hstep
    have hrest := ih (ClaudeStreamJs.claudeToOpenAIResponse env (some e) st).2
      (acc ++ (ClaudeStreamJs.claudeToOpenAIResponse env (some e) st).1.getD []) hinv₁
      (fun e' he' => hnm e' (List.mem_cons_of_mem _ he'))
    obtain ⟨hinv₂, hmono₂, hbound₂⟩ := hrest
    refine ⟨hinv₂, le_trans hmono₁ hmono₂, fun k hk => ?_⟩
    · rw [show claudeFold env (e :: rest) acc st =
        claudeFold env rest
          (acc ++ (ClaudeStreamJs.claudeToOpenAIResponse env (some e) st).1.getD [])
          (ClaudeStreamJs.claudeToOpenAIResponse env (some e) st).2 from rfl] at hk ⊢
      rw [hbound₂ k hk, emittedArgsFor_append,
        hbound₁ k (le_trans hmono₂ hk)]
      simp

/-- Folding the translator over a sequence free of `message_start` and of
`tool_use` starts at provider index `i`, starting from a state that records
an entry at `i`: the entry keeps its output index and id, its buffer grows
by exactly the concatenated fragments at `i`, and the chunks emitted for its
output index carry exactly those fragments. -/
theorem claude_fold_track (env : Env) (es : List ClaudeStreamJs.CEvent) :
    ∀ (st : ClaudeStreamJs.CState) (acc : List OChunk) (i : Nat) (tc : OTCDelta),
      claudeStateInv st → alGet st.toolCalls i = some tc →
      (∀ e ∈ es, isMessageStart e = false) →
      (∀ e ∈ es, isToolUseStartAt i e = false) →
      claudeStateInv (claudeFold env es acc st).2 ∧
      ∃ tc', alGet (claudeFold env es acc st).2.toolCalls i = some tc' ∧
        tc'.index = tc.index ∧ tc'.id = tc.id ∧
        tc'.arguments.getD "" = tc.arguments.getD "" ++ inputFragsAt i es ∧
        emittedArgsFor tc.index (claudeFold env es acc st).1 =
          emittedArgsFor tc.index acc ++ inputFragsAt i es := by
  induction es with
  | nil =>
    intro st acc i tc hinv hget _ _
    exact ⟨hinv, tc, hget, rfl, rfl, by simp [claudeFold, inputFragsAt],
      by simp [claudeFold, inputFragsAt]⟩
  | cons e rest ih =>
    intro st acc i tc hinv hget hnm hns
    have hstep := claude_step_track env e st i tc hinv hget
      (hnm e (List.mem_cons_self _ _)) (hns e (List.mem_cons_self _ _))
    obtain ⟨hinv₁, -, tc₁, hget₁, hidx₁, hid₁, hbuf₁, hout₁⟩ := hstep
    have hrest := ih (ClaudeStreamJs.claudeToOpenAIResponse env (some e) st).2
      (acc ++ (ClaudeStreamJs.claudeToOpenAIResponse env (some e) st).1.getD []) i tc₁ hinv₁
      hget₁ (fun e' he' => hnm e' (List.mem_cons_of_mem _ he'))
      (fun e' he' => hns e' (List.mem_cons_of_mem _ he'))
    obtain ⟨hinv₂, tc₂, hget₂, hidx₂, hid₂, hbuf₂, hout₂⟩ := hrest
    rw [show claudeFold env (e :: rest) acc st =
      claudeFold env rest
        (acc ++ (ClaudeStreamJs.claudeToOpenAIResponse env (some e) st).1.getD [])
        (ClaudeStreamJs.claudeToOpenAIResponse env (some e) st).2 from rfl]
    refine ⟨hinv₂, tc₂, hget₂, hidx₂.trans hidx₁, hid₂.trans hid₁, ?_, ?_⟩
    · rw [hbuf₂, hbuf₁, inputFragsAt_cons i e rest]
      simp [String.append_assoc]
    · rw [hidx₁] at hout₂
      rw [hout₂, emittedArgsFor_append, hout₁, inputFragsAt_cons i e rest]
      simp [String.append_assoc]

/-- `claudeFold` splits over append. -/
theorem claudeFold_append (env : Env) (a b : List ClaudeStreamJs.CEvent) :
    ∀ (acc : List OChunk) (st : ClaudeStreamJs.CState),
      claudeFold env (a ++ b) acc st =
        claudeFold env b (claudeFold env a acc st).1 (claudeFold env a acc st).2 := by
  induction a with
  | nil => intro acc st; rfl
  | cons e t ih =>
    intro acc st
    rw [List.cons_append]
    exact ih _ _

/-- C3 counterexample: an `input_json_delta` whose `partial_json` is the
empty string is falsy in JS, so even with a recorded tool call at its index
the translator emits no chunk at all for that delta. -/
theorem c3_counterexample :
    (alGet ((ClaudeStreamJs.claudeToOpenAIResponse {}
        (some (.content_block_start 5 (some (.tool_use "t1" "lookup"))))
        ((ClaudeStreamJs.claudeToOpenAIResponse {}
          (some (.message_start (some "abcdefgh") (some "mm")))
          ({} : ClaudeStreamJs.CState)).2)).2).toolCalls 5).isSome = true ∧
    (ClaudeStreamJs.claudeToOpenAIResponse {}
        (some (.content_block_delta 5 (some (.input_json_delta ""))))
        ((ClaudeStreamJs.claudeToOpenAIResponse {}
          (some (.content_block_start 5 (some (.tool_use "t1" "lookup"))))
          ((ClaudeStreamJs.claudeToOpenAIResponse {}
            (some (.message_start (some "abcdefgh") (some "mm")))
            ({} : ClaudeStreamJs.CState)).2)).2)).1 = none :=
  ⟨rfl, rfl⟩

/-- C3 amended: an `input_json_delta` carrying a non-empty fragment at a
recorded index emits exactly one chunk whose tool-call delta carries only
that fragment (never the accumulated buffer), tagged with the recorded id
and output index, while appending the fragment to the buffer; an empty
fragment emits nothing and changes nothing; and over a whole exchange
(`message_start`, then events with a single `tool_use` start at index `i`),
the concatenation of the fragments emitted for that tool call's output index
equals the concatenation of the provider fragments at `i` after the start,
which also equals the final argument buffer. -/
theorem c3_tool_call_fragments :
    (∀ (env : Env) (st : ClaudeStreamJs.CState) (i : Nat) (tc : OTCDelta) (f : String),
       alGet st.toolCalls i = some tc → f ≠ "" →
       ClaudeStreamJs.claudeToOpenAIResponse env
           (some (.content_block_delta i (some (.input_json_delta f)))) st =
         (some [ClaudeStreamJs.createChunk env
             { st with toolCalls := alSet st.toolCalls i { tc with arguments := some (tc.arguments.getD "" ++ f) } }
             { tool_calls := some [{ index := tc.index, id := tc.id, arguments := some f }] }],
          { st with toolCalls := alSet st.toolCalls i { tc with arguments := some (tc.arguments.getD "" ++ f) } })) ∧
    (∀ (env : Env) (st : ClaudeStreamJs.CState) (i : Nat),
       ClaudeStreamJs.claudeToOpenAIResponse env
           (some (.content_block_delta i (some (.input_json_delta "")))) st = (none, st)) ∧
    (∀ (env : Env) (mid mmodel : Option String) (pre post : List ClaudeStreamJs.CEvent)
        (i : Nat) (tid tname : String),
       (∀ e ∈ pre ++ ClaudeStreamJs.CEvent.content_block_start i
           (some (.tool_use tid tname)) :: post, isMessageStart e = false) →
       (∀ e ∈ post, isToolUseStartAt i e = false) →
       ∃ tc, alGet (claudeFold env (ClaudeStreamJs.CEvent.message_start mid mmodel ::
             (pre ++ ClaudeStreamJs.CEvent.content_block_start i
               (some (.tool_use tid tname)) :: post)) [] {}).2.toolCalls i = some tc ∧
         tc.id = some tid ∧
         emittedArgsFor tc.index (claudeFold env (ClaudeStreamJs.CEvent.message_start mid mmodel ::
             (pre ++ ClaudeStreamJs.CEvent.content_block_start i
               (some (.tool_use tid tname)) :: post)) [] {}).1 = inputFragsAt i post ∧
         tc.arguments.getD "" = inputFragsAt i post) := by
  refine ⟨?_, ?_, ?_⟩
  · intro env st i tc f hget hf
    simp [ClaudeStreamJs.claudeToOpenAIResponse, hf, hget]
  · intro env st i
    simp [ClaudeStreamJs.claudeToOpenAIResponse]
  · intro env mid mmodel pre post i tid tname hnm hpost
    have hfold1 : claudeFold env (ClaudeStreamJs.CEvent.message_start mid mmodel ::
        (pre ++ ClaudeStreamJs.CEvent.content_block_start i
          (some (.tool_use tid tname)) :: post)) [] {} =
        claudeFold env (pre ++ ClaudeStreamJs.CEvent.content_block_start i
          (some (.tool_use tid tname)) :: post)
          ((ClaudeStreamJs.claudeToOpenAIResponse env
            (some (ClaudeStreamJs.CEvent.message_start mid mmodel)) {}).1.getD [])
          (ClaudeStreamJs.claudeToOpenAIResponse env
            (some (ClaudeStreamJs.CEvent.message_start mid mmodel)) {}).2 := by
      simp [claudeFold]
    have hinv1 : claudeStateInv (ClaudeStreamJs.claudeToOpenAIResponse env
        (some (ClaudeStreamJs.CEvent.message_start mid mmodel)) {}).2 := by
      constructor
      · intro e he
        simp [ClaudeStreamJs.claudeToOpenAIResponse] at he
      · intro e₁ h₁ e₂ h₂ hk
        simp [ClaudeStreamJs.claudeToOpenAIResponse] at h₁
    have hnm_pre : ∀ e ∈ pre, isMessageStart e = false := fun e he =>
      hnm e (List.mem_append_left _ he)
    obtain ⟨hinv2, hmono2, hbound2⟩ := claude_fold_bound env pre _ _ hinv1 hnm_pre
    rw [hfold1, claudeFold_append]
    set F1 := claudeFold env pre
      ((ClaudeStreamJs.claudeToOpenAIResponse env
        (some (ClaudeStreamJs.CEvent.message_start mid mmodel)) {}).1.getD [])
      (ClaudeStreamJs.claudeToOpenAIResponse env
        (some (ClaudeStreamJs.CEvent.message_start mid mmodel)) {}).2 with hF1
    have hstart : claudeFold env (ClaudeStreamJs.CEvent.content_block_start i
        (some (.tool_use tid tname)) :: post) F1.1 F1.2 =
        claudeFold env post
          (F1.1 ++ [ClaudeStreamJs.createChunk env
            { F1.2 with toolCallIndex := F1.2.toolCallIndex + 1
                        toolCalls := alSet F1.2.toolCalls i { index := F1.2.toolCallIndex, id := some tid, ttype := some "function", fname := some tname, arguments := some "" } }
            { tool_calls := some
                [{ index := F1.2.toolCallIndex, id := some tid, ttype := some "function"
                   fname := some tname, arguments := some "" }] }])
          { F1.2 with toolCallIndex := F1.2.toolCallIndex + 1
                      toolCalls := alSet F1.2.toolCalls i { index := F1.2.toolCallIndex, id := some tid, ttype := some "function", fname := some tname, arguments := some "" } } := by
      simp [claudeFold, ClaudeStreamJs.claudeToOpenAIResponse]
    rw [hstart]
    have hinv3 : claudeStateInv
        { F1.2 with toolCallIndex := F1.2.toolCallIndex + 1
                    toolCalls := alSet F1.2.toolCalls i { index := F1.2.toolCallIndex, id := some tid, ttype := some "function", fname := some tname, arguments := some "" } } :=
      claudeStateInv_alSet_bump F1.2 i _ hinv2 rfl
    have hget3 : alGet (alSet F1.2.toolCalls i
        { index := F1.2.toolCallIndex, id := some tid, ttype := some "function"
          fname := some tname, arguments := some "" }) i =
        some { index := F1.2.toolCallIndex, id := some tid, ttype := some "function"
               fname := some tname, arguments := some "" } :=
      alGet_alSet_self _ _ _
    have hnm_post : ∀ e ∈ post, isMessageStart e = false := fun e he =>
      hnm e (List.mem_append_right _ (List.mem_cons_of_mem _ he))
    obtain ⟨hinvF, tcF, hgetF, hidxF, hidF, hbufF, houtF⟩ :=
      claude_fold_track env post _ _ i _ hinv3 hget3 hnm_post hpost
    refine ⟨tcF, hgetF, ?_, ?_, ?_⟩
    · rw [hidF]
    · rw [hidxF, houtF, emittedArgsFor_append]
      have hb : emittedArgsFor F1.2.toolCallIndex F1.1 = "" := by
        rw [hbound2 F1.2.toolCallIndex (le_refl _)]
        simp [emittedArgsFor, chunkArgsFor, ClaudeStreamJs.claudeToOpenAIResponse,
          ClaudeStreamJs.createChunk]
      simp [hb, emittedArgsFor, chunkArgsFor, ClaudeStreamJs.createChunk, String.join]
    · rw [hbufF]
      simp

/-- Witness for C3's amended theorem: one non-empty fragment step, one empty
fragment step, and a full exchange with two fragments `"ab"` and `"cd"`. -/
theorem c3_tool_call_fragments_witness :
    (ClaudeStreamJs.claudeToOpenAIResponse {}
        (some (.content_block_delta 5 (some (.input_json_delta "ab"))))
        ({ toolCalls := [(5, { index := 0, id := some "t1", ttype := some "function", fname := some "lookup", arguments := some "" })] } : ClaudeStreamJs.CState) =
      (some [ClaudeStreamJs.createChunk {}
          ({ toolCalls := [(5, { index := 0, id := some "t1", ttype := some "function", fname := some "lookup", arguments := some "ab" })] } : ClaudeStreamJs.CState)
          { tool_calls := some [{ index := 0, id := some "t1", arguments := some "ab" }] }],
       ({ toolCalls := [(5, { index := 0, id := some "t1", ttype := some "function", fname := some "lookup", arguments := some "ab" })] } : ClaudeStreamJs.CState))) ∧
    (ClaudeStreamJs.claudeToOpenAIResponse {}
        (some (.content_block_delta 0 (some (.input_json_delta ""))))
        ({} : ClaudeStreamJs.CState) = (none, ({} : ClaudeStreamJs.CState))) ∧
    (∃ tc, alGet (claudeFold {} (ClaudeStreamJs.CEvent.message_start (some "abcdefgh") (some "mm") ::
          (ClaudeStreamJs.CEvent.content_block_start 5 (some (.tool_use "t1" "lookup")) ::
            (ClaudeStreamJs.CEvent.content_block_delta 5 (some (.input_json_delta "ab")) ::
              ([ClaudeStreamJs.CEvent.content_block_delta 5 (some (.input_json_delta "cd"))] : List ClaudeStreamJs.CEvent))))
          [] {}).2.toolCalls 5 = some tc ∧
      tc.id = some "t1" ∧
      emittedArgsFor tc.index (claudeFold {}
          (ClaudeStreamJs.CEvent.message_start (some "abcdefgh") (some "mm") ::
            (ClaudeStreamJs.CEvent.content_block_start 5 (some (.tool_use "t1" "lookup")) ::
              (ClaudeStreamJs.CEvent.content_block_delta 5 (some (.input_json_delta "ab")) ::
                ([ClaudeStreamJs.CEvent.content_block_delta 5 (some (.input_json_delta "cd"))] : List ClaudeStreamJs.CEvent))))
          [] {}).1 =
        inputFragsAt 5 [ClaudeStreamJs.CEvent.content_block_delta 5 (some (.input_json_delta "ab")),
          ClaudeStreamJs.CEvent.content_block_delta 5 (some (.input_json_delta "cd"))] ∧
      tc.arguments.getD "" =
        inputFragsAt 5 [ClaudeStreamJs.CEvent.content_block_delta 5 (some (.input_json_delta "ab")),
          ClaudeStreamJs.CEvent.content_block_delta 5 (some (.input_json_delta "cd"))]) :=
  ⟨c3_tool_call_fragments.1 {}
      ({ toolCalls := [(5, { index := 0, id := some "t1", ttype := some "function", fname := some "lookup", arguments := some "" })] } : ClaudeStreamJs.CState)
      5 { index := 0, id := some "t1", ttype := some "function", fname := some "lookup", arguments := some "" }
      "ab" rfl (by decide),
   c3_tool_call_fragments.2.1 {} {} 0,
   c3_tool_call_fragments.2.2 {} (some "abcdefgh") (some "mm") []
     [ClaudeStreamJs.CEvent.content_block_delta 5 (some (.input_json_delta "ab")),
      ClaudeStreamJs.CEvent.content_block_delta 5 (some (.input_json_delta "cd"))]
     5 "t1" "lookup" (by decide) (by decide)⟩

namespace ToOpenAIJs

/-- Case analysis of `flushCurrentMessage`: either it is the identity, or the
role is set and the parts non-empty and the pending message is pushed. -/
theorem flushCurrentMessage_cases (st : MergeSt) :
    flushCurrentMessage st = st ∨
    ∃ r p ps, st.currentRole = some r ∧ st.currentParts = p :: ps ∧
      flushCurrentMessage st =
        { st with msgs := st.msgs ++ [⟨r, p :: ps⟩], currentParts := [] } := by
  rcases hr : st.currentRole with _ | r
  · left
    simp [flushCurrentMessage, hr]
  · rcases hp : st.currentParts with _ | ⟨p, ps⟩
    · left
      simp [flushCurrentMessage, hr, hp]
    · right
      refine ⟨r, p, ps, rfl, rfl, ?_⟩
      simp [flushCurrentMessage, hr, hp]

/-- `flushCurrentMessage` only appends to the accumulated messages. -/
theorem flushCurrentMessage_msgs_prefix (st : MergeSt) :
    ∃ zs, (flushCurrentMessage st).msgs = st.msgs ++ zs := by
  rcases flushCurrentMessage_cases st with h | ⟨r, p, ps, _, _, h⟩
  · exact ⟨[], by simp [h]⟩
  · exact ⟨[⟨r, p :: ps⟩], by rw [h]⟩

/-- Transitivity helper: flushing a state whose messages extend a base list
still extends that base list. -/
theorem flushCurrentMessage_msgs_prefix_over {S : MergeSt} {base : List CMsg}
    (h : ∃ z, S.msgs = base ++ z) :
    ∃ z, (flushCurrentMessage S).msgs = base ++ z := by
  obtain ⟨z, hz⟩ := h
  obtain ⟨w, hw⟩ := flushCurrentMessage_msgs_prefix S
  exact ⟨z ++ w, by rw [hw, hz, List.append_assoc]⟩

/-- Flushing a state with no pending parts is the identity. -/
theorem flushCurrentMessage_of_parts_nil {st : MergeSt} (h : st.currentParts = []) :
    flushCurrentMessage st = st := by
  rcases hr : st.currentRole with _ | r <;> simp [flushCurrentMessage, hr, h]

/-- Flushing preserves the absence of `tool_result` blocks in the pending
parts. -/
theorem flushCurrentMessage_parts_noTR {st : MergeSt}
    (hp : ∀ b ∈ st.currentParts, isToolResultBlock b = false) :
    ∀ b ∈ (flushCurrentMessage st).currentParts, isToolResultBlock b = false := by
  rcases flushCurrentMessage_cases st with h | ⟨r, p, ps, _, _, h⟩
  · rw [h]
    exact hp
  · rw [h]
    simp

/-- A tool-role message makes the merge loop flush the accumulator and append
one standalone user message holding exactly the `tool_result` block. -/
theorem merge_step_tool (env : Env) (st : MergeSt) (m : OMsg) (ht : m.role = "tool") :
    mergeStep env st m =
      { flushCurrentMessage st with
          msgs := (flushCurrentMessage st).msgs ++
            [⟨"user", [⟨.toolResult m.tool_call_id m.content.toJValue false, none⟩]⟩] } := by
  have hb : getContentBlocksFromMessage env m =
      [⟨.toolResult m.tool_call_id m.content.toJValue false, none⟩] := by
    rw [getContentBlocksFromMessage]
    simp [ht]
  simp [mergeStep, hb, isToolResultBlock]

/-- One merge step only appends to the accumulated messages. -/
theorem mergeStep_msgs_prefix (env : Env) (st : MergeSt) (m : OMsg) :
    ∃ zs, (mergeStep env st m).msgs = st.msgs ++ zs := by
  by_cases hTR : (getContentBlocksFromMessage env m).any isToolResultBlock = true
  · simp only [mergeStep, hTR, if_true, apply_ite MergeSt.msgs, ite_self]
    by_cases hE : ((getContentBlocksFromMessage env m).filter isToolResultBlock).isEmpty = true
    · simp only [hE, if_true]
      exact flushCurrentMessage_msgs_prefix st
    · obtain ⟨z, hz⟩ := flushCurrentMessage_msgs_prefix st
      simp only [hE, if_false, Bool.false_eq_true]
      refine ⟨z ++ [⟨"user", (getContentBlocksFromMessage env m).filter isToolResultBlock⟩], ?_⟩
      simp [hz]
  · rw [Bool.not_eq_true] at hTR
    simp only [mergeStep, hTR, Bool.false_eq_true, if_false, apply_ite MergeSt.msgs]
    by_cases hTU : (getContentBlocksFromMessage env m).any isToolUseBlock = true
    · simp only [hTU, if_true]
      apply flushCurrentMessage_msgs_prefix_over
      by_cases hR : st.currentRole =
          some (if m.role = "user" ∨ m.role = "tool" then "user" else "assistant")
      · simp [hR]
      · simp only [apply_ite MergeSt.msgs]
        simp [hR]
        exact flushCurrentMessage_msgs_prefix st
    · simp only [hTU, Bool.false_eq_true, if_false]
      by_cases hR : st.currentRole =
          some (if m.role = "user" ∨ m.role = "tool" then "user" else "assistant")
      · simp [hR]
      · simp [hR]
        exact flushCurrentMessage_msgs_prefix st

/-- Folding the merge loop only appends to the accumulated messages. -/
theorem foldl_mergeStep_msgs_prefix (env : Env) (l : List OMsg) : ∀ st : MergeSt,
    ∃ zs, (l.foldl (mergeStep env) st).msgs = st.msgs ++ zs := by
  induction l with
  | nil => exact fun st => ⟨[], by simp⟩
  | cons m rest ih =>
      intro st
      obtain ⟨z1, h1⟩ := mergeStep_msgs_prefix env st m
      obtain ⟨z2, h2⟩ := ih (mergeStep env st m)
      exact ⟨z1 ++ z2, by rw [List.foldl_cons, h2, h1, List.append_assoc]⟩

end ToOpenAIJs

namespace ToOpenAIJs

/-- `markFirstEligible` either leaves the list unchanged or replaces exactly
one eligible message, the first one, by its cache-marked version. -/
theorem markFirstEligible_decomp : ∀ ms : List CMsg,
    markFirstEligible ms = ms ∨
    ∃ A m B, ms = A ++ m :: B ∧ cacheEligible m = true ∧
      markFirstEligible ms = A ++ setLastBlockCache m :: B
  | [] => Or.inl rfl
  | m :: rest => by
      by_cases h : cacheEligible m = true
      · right
        exact ⟨[], m, rest, rfl, h, by simp [markFirstEligible, h]⟩
      · rw [Bool.not_eq_true] at h
        rcases markFirstEligible_decomp rest with hid | ⟨A, x, B, hms, hel, hres⟩
        · left
          simp [markFirstEligible, h, hid]
        · right
          exact ⟨m :: A, x, B, by rw [hms]; rfl, hel,
            by simp [markFirstEligible, h, hres]⟩

/-- The trailing cache pass either leaves the message list unchanged or
replaces exactly one eligible message by its cache-marked version. -/
theorem addCacheControlLastAssistant_decomp (ms : List CMsg) :
    addCacheControlLastAssistant ms = ms ∨
    ∃ C x D, ms = C ++ x :: D ∧ cacheEligible x = true ∧
      addCacheControlLastAssistant ms = C ++ setLastBlockCache x :: D := by
  rcases markFirstEligible_decomp ms.reverse with h | ⟨A, x, B, hms, hel, hres⟩
  · left
    rw [addCacheControlLastAssistant, h, List.reverse_reverse]
  · right
    refine ⟨B.reverse, x, A.reverse, ?_, hel, ?_⟩
    · have h2 := congrArg List.reverse hms
      rw [List.reverse_reverse] at h2
      rw [h2]
      simp
    · rw [addCacheControlLastAssistant, hres]
      simp

/-- Pointwise description of the trailing cache pass: each position is either
unchanged, or held an eligible message that got cache-marked. -/
theorem addCacheControlLastAssistant_get (ms : List CMsg) (k : Nat) :
    (addCacheControlLastAssistant ms)[k]? = ms[k]? ∨
    ∃ x, ms[k]? = some x ∧ cacheEligible x = true ∧
      (addCacheControlLastAssistant ms)[k]? = some (setLastBlockCache x) := by
  rcases addCacheControlLastAssistant_decomp ms with h | ⟨C, x, D, hms, hel, hres⟩
  · left
    rw [h]
  · by_cases hk : k < C.length
    · left
      rw [hres, hms, List.getElem?_append_left hk, List.getElem?_append_left hk]
    · push_neg at hk
      rcases Nat.eq_or_lt_of_le hk with heq | hlt
      · right
        refine ⟨x, ?_, hel, ?_⟩
        · rw [hms, List.getElem?_append_right hk, ← heq, Nat.sub_self]
          simp
        · rw [hres, List.getElem?_append_right hk, ← heq, Nat.sub_self]
          simp
      · left
        rw [hres, hms, List.getElem?_append_right hk, List.getElem?_append_right hk]
        have hsub : k - C.length = (k - C.length - 1) + 1 := by omega
        rw [hsub]
        simp

/-- Cache-marking preserves the role of a message. -/
theorem setLastBlockCache_role (m : CMsg) : (setLastBlockCache m).role = m.role := by
  rcases h : m.content.reverse with _ | ⟨b, rest⟩ <;> simp [setLastBlockCache, h]

/-- Cache-marking preserves the block payloads of a message. -/
theorem setLastBlockCache_bodies (m : CMsg) :
    (setLastBlockCache m).content.map CBlock.body = m.content.map CBlock.body := by
  rcases h : m.content.reverse with _ | ⟨b, rest⟩
  · simp [setLastBlockCache, h]
  · have hc : m.content = (b :: rest).reverse := by
      rw [← List.reverse_reverse m.content, h]
    rw [hc]
    simp [setLastBlockCache, h, hc]

/-- `all isToolResultBlock` only depends on the block payloads. -/
theorem all_isToolResultBlock_map (l : List CBlock) :
    l.all isToolResultBlock =
      (l.map CBlock.body).all
        (fun c => match c with | .toolResult _ _ _ => true | _ => false) := by
  induction l with
  | nil => rfl
  | cons b r ih =>
      simp only [List.map_cons, List.all_cons, ih]
      rfl

end ToOpenAIJs

/-- Lists of equal length agree on `isEmpty`. -/
theorem isEmpty_eq_of_length_eq {α β : Type} {l1 : List α} {l2 : List β}
    (h : l1.length = l2.length) : l1.isEmpty = l2.isEmpty := by
  cases l1 <;> cases l2 <;> simp_all

/-- Cache-marking does not affect the standalone-tool-result shape of a
message. -/
theorem isStandaloneToolResultMsg_set (m : CMsg) :
    isStandaloneToolResultMsg (ToOpenAIJs.setLastBlockCache m)
      = isStandaloneToolResultMsg m := by
  have hb := ToOpenAIJs.setLastBlockCache_bodies m
  have hlen : (ToOpenAIJs.setLastBlockCache m).content.length = m.content.length := by
    have h2 := congrArg List.length hb
    simpa using h2
  simp only [isStandaloneToolResultMsg, ToOpenAIJs.setLastBlockCache_role,
    ToOpenAIJs.all_isToolResultBlock_map, hb, isEmpty_eq_of_length_eq hlen]

/-- The trailing cache pass preserves any count that cache-marking does not
affect. -/
theorem addCacheControlLastAssistant_countP (P : CMsg → Bool)
    (hP : ∀ m, P (ToOpenAIJs.setLastBlockCache m) = P m) (ms : List CMsg) :
    (ToOpenAIJs.addCacheControlLastAssistant ms).countP P = ms.countP P := by
  rcases ToOpenAIJs.addCacheControlLastAssistant_decomp ms with h | ⟨C, x, D, hms, _, hres⟩
  · rw [h]
  · rw [hres, hms]
    simp [List.countP_append, List.countP_cons, hP]

namespace ToOpenAIJs

/-- Flushing never adds a standalone tool-result message when the pending
parts contain no `tool_result` block. -/
theorem countP_flush (st : MergeSt)
    (hp : ∀ b ∈ st.currentParts, isToolResultBlock b = false) :
    ((flushCurrentMessage st).msgs).countP isStandaloneToolResultMsg
      = st.msgs.countP isStandaloneToolResultMsg := by
  rcases flushCurrentMessage_cases st with h | ⟨r, p, ps, hr, hparts, h⟩
  · rw [h]
  · rw [h]
    have hpf : isToolResultBlock p = false := hp p (by rw [hparts]; exact List.mem_cons_self _ _)
    simp [List.countP_append, List.countP_cons, isStandaloneToolResultMsg, hpf]

/-- One merge step adds exactly one standalone tool-result message for a
tool-role input and none otherwise, and keeps the pending parts free of
`tool_result` blocks. -/
theorem countP_mergeStep (env : Env) (st : MergeSt) (m : OMsg)
    (hm : m.role = "tool" ∨
      ∀ b ∈ getContentBlocksFromMessage env m, isToolResultBlock b = false)
    (hp : ∀ b ∈ st.currentParts, isToolResultBlock b = false) :
    ((mergeStep env st m).msgs).countP isStandaloneToolResultMsg
        = st.msgs.countP isStandaloneToolResultMsg + (if m.role = "tool" then 1 else 0)
      ∧ ∀ b ∈ (mergeStep env st m).currentParts, isToolResultBlock b = false := by
  rcases hm with ht | hno
  · rw [merge_step_tool env st m ht]
    constructor
    · rw [List.countP_append, countP_flush st hp]
      simp [List.countP_cons, isStandaloneToolResultMsg, isToolResultBlock, ht]
    · exact flushCurrentMessage_parts_noTR hp
  · have htool : m.role ≠ "tool" := by
      intro h
      have hmem : (⟨.toolResult m.tool_call_id m.content.toJValue false, none⟩ : CBlock)
          ∈ getContentBlocksFromMessage env m := by
        rw [getContentBlocksFromMessage]
        simp [h]
      have h2 := hno _ hmem
      simp [isToolResultBlock] at h2
    have hTR : (getContentBlocksFromMessage env m).any isToolResultBlock = false := by
      rw [List.any_eq_false]
      intro b hb
      simp [hno b hb]
    by_cases hR : st.currentRole =
        some (if m.role = "user" ∨ m.role = "tool" then "user" else "assistant")
    · by_cases hTU : (getContentBlocksFromMessage env m).any isToolUseBlock = true
      · have hstep : mergeStep env st m = flushCurrentMessage
            { st with currentParts := st.currentParts ++ getContentBlocksFromMessage env m } := by
          simp [mergeStep, hTR, hR, hTU]
        rw [hstep]
        have hparts : ∀ b ∈ ({ st with
            currentParts := st.currentParts ++ getContentBlocksFromMessage env m } :
              MergeSt).currentParts, isToolResultBlock b = false := by
          intro b hb
          simp only [List.mem_append] at hb
          rcases hb with hb | hb
          · exact hp b hb
          · exact hno b hb
        refine ⟨?_, flushCurrentMessage_parts_noTR hparts⟩
        rw [countP_flush _ hparts]
        simp [htool]
      · rw [Bool.not_eq_true] at hTU
        have hstep : mergeStep env st m =
            { st with currentParts := st.currentParts ++ getContentBlocksFromMessage env m } := by
          simp [mergeStep, hTR, hR, hTU]
        rw [hstep]
        constructor
        · simp [htool]
        · intro b hb
          simp only [List.mem_append] at hb
          rcases hb with hb | hb
          · exact hp b hb
          · exact hno b hb
    · have hpf := flushCurrentMessage_parts_noTR hp
      by_cases hTU : (getContentBlocksFromMessage env m).any isToolUseBlock = true
      · have hstep : mergeStep env st m = flushCurrentMessage
            { flushCurrentMessage st with
                currentRole := some (if m.role = "user" ∨ m.role = "tool" then "user" else "assistant"),
                currentParts := (flushCurrentMessage st).currentParts
                  ++ getContentBlocksFromMessage env m } := by
          simp [mergeStep, hTR, hR, hTU]
        rw [hstep]
        have hparts : ∀ b ∈ ({ flushCurrentMessage st with
            currentRole := some (if m.role = "user" ∨ m.role = "tool" then "user" else "assistant"),
            currentParts := (flushCurrentMessage st).currentParts
              ++ getContentBlocksFromMessage env m } : MergeSt).currentParts,
            isToolResultBlock b = false := by
          intro b hb
          simp only [List.mem_append] at hb
          rcases hb with hb | hb
          · exact hpf b hb
          · exact hno b hb
        refine ⟨?_, flushCurrentMessage_parts_noTR hparts⟩
        rw [countP_flush _ hparts]
        have h3 : (({ flushCurrentMessage st with
            currentRole := some (if m.role = "user" ∨ m.role = "tool" then "user" else "assistant"),
            currentParts := (flushCurrentMessage st).currentParts
              ++ getContentBlocksFromMessage env m } : MergeSt)).msgs
            = (flushCurrentMessage st).msgs := rfl
        rw [h3, countP_flush st hp]
        simp [htool]
      · rw [Bool.not_eq_true] at hTU
        have hstep : mergeStep env st m =
            { flushCurrentMessage st with
                currentRole := some (if m.role = "user" ∨ m.role = "tool" then "user" else "assistant"),
                currentParts := (flushCurrentMessage st).currentParts
                  ++ getContentBlocksFromMessage env m } := by
          simp [mergeStep, hTR, hR, hTU]
        rw [hstep]
        constructor
        · show ((flushCurrentMessage st).msgs).countP isStandaloneToolResultMsg = _
          rw [countP_flush st hp]
          simp [htool]
        · intro b hb
          simp only [List.mem_append] at hb
          rcases hb with hb | hb
          · exact hpf b hb
          · exact hno b hb

/-- Folding the merge loop adds exactly one standalone tool-result message
per tool-role input, provided non-tool inputs contribute no `tool_result`
blocks. -/
theorem countP_foldl_mergeStep (env : Env) : ∀ (l : List OMsg) (st : MergeSt),
    (∀ m ∈ l, m.role = "tool" ∨
      ∀ b ∈ getContentBlocksFromMessage env m, isToolResultBlock b = false) →
    (∀ b ∈ st.currentParts, isToolResultBlock b = false) →
    ((l.foldl (mergeStep env) st).msgs).countP isStandaloneToolResultMsg
        = st.msgs.countP isStandaloneToolResultMsg
          + l.countP (fun m => m.role == "tool")
      ∧ ∀ b ∈ (l.foldl (mergeStep env) st).currentParts, isToolResultBlock b = false
  | [], st, _, hp => ⟨by simp, by simpa using hp⟩
  | m :: rest, st, hl, hp => by
      obtain ⟨h1, h2⟩ := countP_mergeStep env st m (hl m (List.mem_cons_self _ _)) hp
      obtain ⟨h3, h4⟩ := countP_foldl_mergeStep env rest (mergeStep env st m)
        (fun x hx => hl x (List.mem_cons_of_mem _ hx)) h2
      refine ⟨?_, by simpa using h4⟩
      rw [List.foldl_cons, h3, h1, List.countP_cons]
      by_cases htl : m.role = "tool"
      · simp [htl]
        try omega
      · simp [htl]
        try omega

/-- Dropping system messages does not change the number of tool-role
messages. -/
theorem countP_tool_filter_nonsystem (msgs : List OMsg) :
    (msgs.filter (fun m => m.role ≠ "system")).countP (fun m => m.role == "tool")
      = msgs.countP (fun m => m.role == "tool") := by
  induction msgs with
  | nil => rfl
  | cons m rest ih =>
      by_cases h : m.role = "system"
      · rw [List.filter_cons]
        simp [h, List.countP_cons]
        simpa using ih
      · rw [List.filter_cons]
        simp [h, List.countP_cons]
        simpa using ih

end ToOpenAIJs

namespace ToOpenAIJs

/-- An assistant message carrying a `tool_use` block (and no `tool_result`)
closes the accumulator: after the step, the pending parts are empty and the
last accumulated message is an assistant message ending in the message's
blocks. -/
theorem flushCurrentMessage_eq_push (X : MergeSt) (r : String) (p : CBlock)
    (ps : List CBlock) (hr : X.currentRole = some r) (hp : X.currentParts = p :: ps) :
    flushCurrentMessage X = { X with msgs := X.msgs ++ [⟨r, p :: ps⟩], currentParts := [] } := by
  simp [flushCurrentMessage, hr, hp]

theorem merge_step_assistant (env : Env) (st : MergeSt) (m : OMsg)
    (ha : m.role = "assistant")
    (hnoTR : (getContentBlocksFromMessage env m).any isToolResultBlock = false)
    (hTU : (getContentBlocksFromMessage env m).any isToolUseBlock = true) :
    ∃ Y P, mergeStep env st m
        = ⟨some "assistant", [], Y ++ [⟨"assistant", P ++ getContentBlocksFromMessage env m⟩]⟩
      ∧ ∃ z, Y = st.msgs ++ z := by
  have hbn : getContentBlocksFromMessage env m ≠ [] := by
    rcases List.any_eq_true.mp hTU with ⟨b, hb, -⟩
    exact List.ne_nil_of_mem hb
  by_cases hR : st.currentRole = some "assistant"
  · have hq : st.currentParts ++ getContentBlocksFromMessage env m ≠ [] := by
      simp [hbn]
    rcases hcons : st.currentParts ++ getContentBlocksFromMessage env m with _ | ⟨q, qs⟩
    · exact absurd hcons hq
    · refine ⟨st.msgs, st.currentParts, ?_, [], by simp⟩
      have hstep : mergeStep env st m = flushCurrentMessage
          { st with currentParts := st.currentParts ++ getContentBlocksFromMessage env m } := by
        simp [mergeStep, hnoTR, ha, hR, hTU]
      rw [hstep]
      simp [flushCurrentMessage, hR, hcons]
  · have hq : (flushCurrentMessage st).currentParts ++ getContentBlocksFromMessage env m ≠ [] := by
      simp [hbn]
    rcases hcons : (flushCurrentMessage st).currentParts ++ getContentBlocksFromMessage env m
      with _ | ⟨q, qs⟩
    · exact absurd hcons hq
    · obtain ⟨z, hz⟩ := flushCurrentMessage_msgs_prefix st
      refine ⟨(flushCurrentMessage st).msgs, (flushCurrentMessage st).currentParts, ?_, z, hz⟩
      have hstep : mergeStep env st m = flushCurrentMessage
          { flushCurrentMessage st with
              currentRole := some "assistant",
              currentParts := (flushCurrentMessage st).currentParts
                ++ getContentBlocksFromMessage env m } := by
        simp [mergeStep, hnoTR, ha, hR, hTU]
      have hfl := flushCurrentMessage_eq_push
        { flushCurrentMessage st with
            currentRole := some "assistant", currentParts := q :: qs }
        "assistant" q qs rfl rfl
      rw [hstep, hcons, hfl]

end ToOpenAIJs

/-- C1: for a request whose tool-role message immediately follows the
assistant message holding its matching tool call, `openaiToClaude` (i) merges
the tool message by first flushing the pending accumulator and then appending
a standalone user message whose content is exactly the `tool_result` block,
(ii) places that standalone user message immediately after the merged
assistant message containing the matching `tool_use` block, and (iii) when
tool results come only from tool-role messages, emits exactly one standalone
tool-result message per tool-role message of the request. -/
theorem c1_standalone_tool_results
    (env : Env) (model : String) (body : OBody) (stream : Bool)
    (msgs pre post : List OMsg) (a t : OMsg) (uid nm : String) (inp : JValue)
    (hb : body.messages = some msgs)
    (hm : msgs = pre ++ a :: t :: post)
    (ha : a.role = "assistant") (ht : t.role = "tool")
    (hid : t.tool_call_id = some uid)
    (hmatch : (⟨.toolUse uid nm inp, none⟩ : CBlock) ∈
      ToOpenAIJs.getContentBlocksFromMessage env a)
    (hnoTR : ∀ m ∈ msgs, m.role = "tool" ∨
      ∀ b ∈ ToOpenAIJs.getContentBlocksFromMessage env m,
        ToOpenAIJs.isToolResultBlock b = false) :
    (∀ st : ToOpenAIJs.MergeSt, ToOpenAIJs.mergeStep env st t =
      { ToOpenAIJs.flushCurrentMessage st with
          msgs := (ToOpenAIJs.flushCurrentMessage st).msgs ++
            [⟨"user", [⟨.toolResult t.tool_call_id t.content.toJValue false, none⟩]⟩] }) ∧
    (∃ j m', ((ToOpenAIJs.openaiToClaude env model body stream).messages)[j]? = some m' ∧
      m'.role = "assistant" ∧
      (∃ b ∈ m'.content, b.body = .toolUse uid nm inp) ∧
      ((ToOpenAIJs.openaiToClaude env model body stream).messages)[j + 1]? =
        some ⟨"user", [⟨.toolResult (some uid) t.content.toJValue false, none⟩]⟩) ∧
    ((ToOpenAIJs.openaiToClaude env model body stream).messages.countP
        isStandaloneToolResultMsg
      = msgs.countP (fun m => m.role == "tool")) := by
  have hmsgs : (ToOpenAIJs.openaiToClaude env model body stream).messages
      = ToOpenAIJs.addCacheControlLastAssistant
          (ToOpenAIJs.flushCurrentMessage
            ((msgs.filter (fun m => m.role ≠ "system")).foldl
              (ToOpenAIJs.mergeStep env) {})).msgs := by
    simp [ToOpenAIJs.openaiToClaude, hb]
  have hfil : msgs.filter (fun m => m.role ≠ "system")
      = pre.filter (fun m => m.role ≠ "system")
        ++ a :: t :: post.filter (fun m => m.role ≠ "system") := by
    rw [hm]
    simp [List.filter_append, List.filter_cons, ha, ht]
  have hTRa : (ToOpenAIJs.getContentBlocksFromMessage env a).any
      ToOpenAIJs.isToolResultBlock = false := by
    rcases hnoTR a (by rw [hm]; simp) with h | h
    · rw [ha] at h
      simp at h
    · rw [List.any_eq_false]
      intro b hb2
      simp [h b hb2]
  have hTUa : (ToOpenAIJs.getContentBlocksFromMessage env a).any
      ToOpenAIJs.isToolUseBlock = true := by
    rw [List.any_eq_true]
    exact ⟨_, hmatch, rfl⟩
  obtain ⟨Y, P, hstepA, z2, hY⟩ := ToOpenAIJs.merge_step_assistant env
    ((pre.filter (fun m => m.role ≠ "system")).foldl
      (ToOpenAIJs.mergeStep env) ({} : ToOpenAIJs.MergeSt)) a ha hTRa hTUa
  have hflush2 : ToOpenAIJs.flushCurrentMessage
      (ToOpenAIJs.mergeStep env
        ((pre.filter (fun m => m.role ≠ "system")).foldl
          (ToOpenAIJs.mergeStep env) ({} : ToOpenAIJs.MergeSt)) a)
      = ToOpenAIJs.mergeStep env
        ((pre.filter (fun m => m.role ≠ "system")).foldl
          (ToOpenAIJs.mergeStep env) ({} : ToOpenAIJs.MergeSt)) a :=
    ToOpenAIJs.flushCurrentMessage_of_parts_nil (by rw [hstepA])
  have hstepT := ToOpenAIJs.merge_step_tool env
    (ToOpenAIJs.mergeStep env
      ((pre.filter (fun m => m.role ≠ "system")).foldl
        (ToOpenAIJs.mergeStep env) ({} : ToOpenAIJs.MergeSt)) a) t ht
  rw [hflush2] at hstepT
  have hst3 : (ToOpenAIJs.mergeStep env
      (ToOpenAIJs.mergeStep env
        ((pre.filter (fun m => m.role ≠ "system")).foldl
          (ToOpenAIJs.mergeStep env) ({} : ToOpenAIJs.MergeSt)) a) t).msgs
      = Y ++ ⟨"assistant", P ++ ToOpenAIJs.getContentBlocksFromMessage env a⟩ ::
          ⟨"user", [⟨.toolResult t.tool_call_id t.content.toJValue false, none⟩]⟩ :: [] := by
    rw [hstepT, hstepA]
    simp
  obtain ⟨z4, hz4⟩ := ToOpenAIJs.foldl_mergeStep_msgs_prefix env
    (post.filter (fun m => m.role ≠ "system"))
    (ToOpenAIJs.mergeStep env
      (ToOpenAIJs.mergeStep env
        ((pre.filter (fun m => m.role ≠ "system")).foldl
          (ToOpenAIJs.mergeStep env) ({} : ToOpenAIJs.MergeSt)) a) t)
  obtain ⟨z5, hz5⟩ := ToOpenAIJs.flushCurrentMessage_msgs_prefix
    ((post.filter (fun m => m.role ≠ "system")).foldl (ToOpenAIJs.mergeStep env)
      (ToOpenAIJs.mergeStep env
        (ToOpenAIJs.mergeStep env
          ((pre.filter (fun m => m.role ≠ "system")).foldl
            (ToOpenAIJs.mergeStep env) ({} : ToOpenAIJs.MergeSt)) a) t))
  have hMM : (ToOpenAIJs.flushCurrentMessage
      ((msgs.filter (fun m => m.role ≠ "system")).foldl
        (ToOpenAIJs.mergeStep env) {})).msgs
      = Y ++ ⟨"assistant", P ++ ToOpenAIJs.getContentBlocksFromMessage env a⟩ ::
          ⟨"user", [⟨.toolResult t.tool_call_id t.content.toJValue false, none⟩]⟩ ::
          (z4 ++ z5) := by
    rw [hfil, List.foldl_append, List.foldl_cons, List.foldl_cons, hz5, hz4, hst3]
    simp
  have hget0 : ((ToOpenAIJs.flushCurrentMessage
      ((msgs.filter (fun m => m.role ≠ "system")).foldl
        (ToOpenAIJs.mergeStep env) {})).msgs)[Y.length]?
      = some ⟨"assistant", P ++ ToOpenAIJs.getContentBlocksFromMessage env a⟩ := by
    rw [hMM, List.getElem?_append_right (le_refl _), Nat.sub_self]
    simp
  have hget1 : ((ToOpenAIJs.flushCurrentMessage
      ((msgs.filter (fun m => m.role ≠ "system")).foldl
        (ToOpenAIJs.mergeStep env) {})).msgs)[Y.length + 1]?
      = some ⟨"user", [⟨.toolResult t.tool_call_id t.content.toJValue false, none⟩]⟩ := by
    rw [hMM, List.getElem?_append_right (by omega)]
    have hs : Y.length + 1 - Y.length = 1 := by omega
    rw [hs]
    simp
  rw [hid] at hget1
  have hfin1 : ((ToOpenAIJs.openaiToClaude env model body stream).messages)[Y.length + 1]?
      = some ⟨"user", [⟨.toolResult (some uid) t.content.toJValue false, none⟩]⟩ := by
    rcases ToOpenAIJs.addCacheControlLastAssistant_get
      ((ToOpenAIJs.flushCurrentMessage
        ((msgs.filter (fun m => m.role ≠ "system")).foldl
          (ToOpenAIJs.mergeStep env) {})).msgs) (Y.length + 1) with hL1 | ⟨x1, hx1, hel1, -⟩
    · rw [hmsgs, hL1]
      exact hget1
    · exfalso
      rw [hget1] at hx1
      have hx1e := Option.some.inj hx1
      rw [← hx1e] at hel1
      simp [ToOpenAIJs.cacheEligible] at hel1
  refine ⟨fun st => ToOpenAIJs.merge_step_tool env st t ht, ?_, ?_⟩
  · rcases ToOpenAIJs.addCacheControlLastAssistant_get
      ((ToOpenAIJs.flushCurrentMessage
        ((msgs.filter (fun m => m.role ≠ "system")).foldl
          (ToOpenAIJs.mergeStep env) {})).msgs) Y.length with hL | ⟨x, hx, hel, hset⟩
    · refine ⟨Y.length,
        ⟨"assistant", P ++ ToOpenAIJs.getContentBlocksFromMessage env a⟩, ?_, rfl, ?_, hfin1⟩
      · rw [hmsgs, hL]
        exact hget0
      · exact ⟨⟨.toolUse uid nm inp, none⟩, List.mem_append_right _ hmatch, rfl⟩
    · have hxM : x = ⟨"assistant", P ++ ToOpenAIJs.getContentBlocksFromMessage env a⟩ := by
        rw [hget0] at hx
        exact (Option.some.inj hx).symm
      rw [hxM] at hset
      refine ⟨Y.length, ToOpenAIJs.setLastBlockCache
        ⟨"assistant", P ++ ToOpenAIJs.getContentBlocksFromMessage env a⟩, ?_, ?_, ?_, hfin1⟩
      · rw [hmsgs]
        exact hset
      · rw [ToOpenAIJs.setLastBlockCache_role]
      · have hmem : CBody.toolUse uid nm inp ∈
            ((ToOpenAIJs.setLastBlockCache
              ⟨"assistant", P ++ ToOpenAIJs.getContentBlocksFromMessage env a⟩).content).map
              CBlock.body := by
          rw [ToOpenAIJs.setLastBlockCache_bodies]
          exact List.mem_map.mpr
            ⟨⟨.toolUse uid nm inp, none⟩, List.mem_append_right _ hmatch, rfl⟩
        rcases List.mem_map.mp hmem with ⟨b, hbmem, hbeq⟩
        exact ⟨b, hbmem, hbeq⟩
  · rw [hmsgs,
      addCacheControlLastAssistant_countP _ isStandaloneToolResultMsg_set]
    have hall : ∀ m ∈ msgs.filter (fun m => m.role ≠ "system"), m.role = "tool" ∨
        ∀ b ∈ ToOpenAIJs.getContentBlocksFromMessage env m,
          ToOpenAIJs.isToolResultBlock b = false :=
      fun m hm2 => hnoTR m (List.mem_of_mem_filter hm2)
    obtain ⟨hc, hpf⟩ := ToOpenAIJs.countP_foldl_mergeStep env
      (msgs.filter (fun m => m.role ≠ "system")) {} hall (by simp)
    rw [ToOpenAIJs.countP_flush _ hpf, hc]
    simp
    simpa using ToOpenAIJs.countP_tool_filter_nonsystem msgs

/-- Witness for C1: a two-message exchange (assistant tool call `u1`, then the
tool result) exercises all three conclusions at concrete inputs. -/
theorem c1_standalone_tool_results_witness :
    (ToOpenAIJs.mergeStep {} ({} : ToOpenAIJs.MergeSt)
        ({ role := "tool", content := .str "ok", tool_call_id := some "u1" } : OMsg) =
      { ToOpenAIJs.flushCurrentMessage ({} : ToOpenAIJs.MergeSt) with
          msgs := (ToOpenAIJs.flushCurrentMessage ({} : ToOpenAIJs.MergeSt)).msgs ++
            [⟨"user", [⟨.toolResult (some "u1") (JValue.str "ok") false, none⟩]⟩] }) ∧
    (∃ j m', ((ToOpenAIJs.openaiToClaude {} "m"
        { messages := some
            [{ role := "assistant", content := .parts [.tool_use "u1" "fn" JValue.null] },
             { role := "tool", content := .str "ok", tool_call_id := some "u1" }] }
        false).messages)[j]? = some m' ∧
      m'.role = "assistant" ∧
      (∃ b ∈ m'.content, b.body = .toolUse "u1" "fn" JValue.null) ∧
      ((ToOpenAIJs.openaiToClaude {} "m"
        { messages := some
            [{ role := "assistant", content := .parts [.tool_use "u1" "fn" JValue.null] },
             { role := "tool", content := .str "ok", tool_call_id := some "u1" }] }
        false).messages)[j + 1]? =
          some ⟨"user", [⟨.toolResult (some "u1") (JValue.str "ok") false, none⟩]⟩) ∧
    ((ToOpenAIJs.openaiToClaude {} "m"
        { messages := some
            [{ role := "assistant", content := .parts [.tool_use "u1" "fn" JValue.null] },
             { role := "tool", content := .str "ok", tool_call_id := some "u1" }] }
        false).messages.countP isStandaloneToolResultMsg
      = ([{ role := "assistant", content := .parts [.tool_use "u1" "fn" JValue.null] },
          { role := "tool", content := .str "ok", tool_call_id := some "u1" }] :
            List OMsg).countP (fun m => m.role == "tool")) := by
  have h := c1_standalone_tool_results ({} : Env) "m"
    ({ messages := some
        [{ role := "assistant", content := .parts [.tool_use "u1" "fn" JValue.null] },
         { role := "tool", content := .str "ok", tool_call_id := some "u1" }] } : OBody)
    false
    [{ role := "assistant", content := .parts [.tool_use "u1" "fn" JValue.null] },
     { role := "tool", content := .str "ok", tool_call_id := some "u1" }]
    [] []
    ({ role := "assistant", content := .parts [.tool_use "u1" "fn" JValue.null] } : OMsg)
    ({ role := "tool", content := .str "ok", tool_call_id := some "u1" } : OMsg)
    "u1" "fn" JValue.null
    rfl rfl rfl rfl rfl
    (by simp [ToOpenAIJs.getContentBlocksFromMessage])
    (by
      intro m hmem
      simp only [List.mem_cons, List.not_mem_nil, or_false] at hmem
      rcases hmem with rfl | rfl
      · right
        intro b hb
        simp [ToOpenAIJs.getContentBlocksFromMessage] at hb
        subst hb
        rfl
      · left
        rfl)
  exact ⟨h.1 {}, h.2.1, h.2.2⟩
